import Mathlib

set_option exponentiation.threshold 10000
set_option maxRecDepth 40000

/-!
Byte-level model of the slotted heap page of the heapstore crate
(src/storage/heapstore/src/page.rs and heap_page.rs).

A page is a fixed buffer of PAGE_SIZE bytes.  The buffer is modelled as a
natural number in base 256, little-endian by byte index: byte i of buffer d
is d / 256 ^ i % 256.  A buffer of PAGE_SIZE bytes is a number below
256 ^ PAGE_SIZE (the hypothesis named in theorems as the buffer bound); with
this representation every byte is below 256 by construction, matching the
Rust type [u8; PAGE_SIZE].  Byte sequences handed in and out of the page
(Rust &[u8] / Vec<u8>) are modelled by the structure Bytes: an explicit
length together with the base-256 value of the sequence; a well-formed
sequence has its value below 256 ^ length.

Every store the Rust code performs on the buffer is a contiguous slice
assignment and is modelled by the single primitive storeBytes.  Rust's
panicking out-of-range accesses are totalised: storeBytes and copyWithin are
the identity when the written or read range does not fit in the page.  On
every state the code actually reaches these guards are inactive, so the
model agrees with the source there.
-/

/-- Page size in bytes (common::PAGE_SIZE). -/
abbrev PAGE_SIZE : Nat := 4096

/-- Byte i of a buffer. -/
def byteAt (d i : Nat) : Nat := d / 256 ^ i % 256

/-- The n-byte range starting at byte pos of a buffer, as a base-256 value. -/
def rangeVal (d pos n : Nat) : Nat := d / 256 ^ pos % 256 ^ n

/-- Little-endian u16 read at a byte offset (u16::from_le_bytes). -/
def readU16 (d off : Nat) : Nat :=
  byteAt d off + 256 * byteAt d (off + 1)

/-- Stores the n-byte sequence with value w at byte pos of buffer d:
models a Rust slice assignment data[pos..pos+n] <- w.  Identity when the
range does not fit in the page (Rust panics there; never reached). -/
def storeBytes (d pos n w : Nat) : Nat :=
  if pos + n ≤ PAGE_SIZE then
    d % 256 ^ pos + (w % 256 ^ n) * 256 ^ pos + d / 256 ^ (pos + n) * 256 ^ (pos + n)
  else d

/-- Little-endian u16 store at a byte offset; the value is cast to u16
((v as u16).to_le_bytes copied into the two bytes at off). -/
def writeU16 (d off v : Nat) : Nat := storeBytes d off 2 v

/-- A byte sequence (&[u8] / Vec<u8>): a length and the base-256 value of
the bytes, little-endian by index.  Well-formed when val < 256 ^ len. -/
structure Bytes where
  len : Nat
  val : Nat
deriving DecidableEq

/-- A byte sequence all whose bytes are the byte b (b below 256). -/
def repBytes (k b : Nat) : Bytes :=
  ⟨k, b * ((256 ^ k - 1) / 255)⟩

/-- The len bytes of the buffer starting at src, as a byte sequence. -/
def extract (d src len : Nat) : Bytes :=
  ⟨len, rangeVal d src len⟩

/-- Models slice::copy_within(src..src+len, dst): memmove semantics.
Identity when the source range is out of bounds (Rust panics there). -/
def copyWithin (d src len dst : Nat) : Nat :=
  if src + len ≤ PAGE_SIZE then storeBytes d dst len (extract d src len).val else d

/-- The page: a raw byte buffer (struct Page in page.rs). -/
structure Page where
  data : Nat
deriving DecidableEq

/-- A page buffer of PAGE_SIZE bytes (what the Rust type [u8; PAGE_SIZE]
guarantees). -/
abbrev Page.Wf (p : Page) : Prop := p.data < 256 ^ PAGE_SIZE

/-- A well-formed byte sequence: its value fits in its length (what the Rust
type &[u8] guarantees). -/
abbrev Bytes.Wf (b : Bytes) : Prop := b.val < 256 ^ b.len

/-- Page::new — zeroed buffer with page_id, num_slots = 0, free_start = 8. -/
def Page.new (page_id : Nat) : Page :=
  ⟨writeU16 (writeU16 (writeU16 0 0 page_id) 2 0)
    4 8⟩

/-- Page::from_bytes — wraps a buffer verbatim. -/
def Page.from_bytes (data : Nat) : Page := ⟨data⟩

/-- Page::to_bytes — the raw buffer. -/
def Page.to_bytes (p : Page) : Nat := p.data

/-- Page::get_page_id. -/
def Page.get_page_id (p : Page) : Nat := readU16 p.data 0

/-- Number of slot entries in the header. -/
def Page.get_num_slots (p : Page) : Nat :=
  readU16 p.data 2

/-- Writes num_slots to the header (cast to u16). -/
def Page.set_num_slots (p : Page) (n : Nat) : Page :=
  ⟨writeU16 p.data 2 n⟩

/-- First free body byte; clamps to body_start if the stored value is stale
and to PAGE_SIZE above. -/
def Page.get_free_start (p : Page) : Nat :=
  let num_slots := p.get_num_slots
  let body_start := 8 + num_slots * 6
  let stored := readU16 p.data 4
  let raw := if stored < body_start then body_start else stored
  min raw PAGE_SIZE

/-- Writes free_start to the header clamped to PAGE_SIZE. -/
def Page.set_free_start (p : Page) (pos : Nat) : Page :=
  ⟨writeU16 p.data 4 (min pos PAGE_SIZE)⟩

/-- Byte offset of a slot's metadata entry. -/
def slot_meta_offset (slot_id : Nat) : Nat :=
  8 + slot_id * 6

/-- Offset and length for a slot, or none if out of range. -/
def Page.get_slot_offset_length (p : Page) (slot_id : Nat) : Option (Nat × Nat) :=
  if slot_id ≥ p.get_num_slots then none
  else some (readU16 p.data (slot_meta_offset slot_id + 0),
             readU16 p.data (slot_meta_offset slot_id + 2))

/-- in_use flag for a slot, or none if out of range. -/
def Page.get_slot_in_use (p : Page) (slot_id : Nat) : Option Nat :=
  if slot_id ≥ p.get_num_slots then none
  else some (byteAt p.data (slot_meta_offset slot_id + 4))

/-- Sets the in_use flag for a slot (a one-byte store). -/
def Page.set_slot_in_use (p : Page) (slot_id in_use : Nat) : Page :=
  ⟨storeBytes p.data (slot_meta_offset slot_id + 4) 1 in_use⟩

/-- Writes offset, length and in_use into a slot's metadata entry. -/
def Page.write_slot (p : Page) (slot_id offset length in_use : Nat) : Page :=
  let base := slot_meta_offset slot_id
  ⟨storeBytes (writeU16 (writeU16 p.data base offset) (base + 2) length)
    (base + 4) 1 in_use⟩

/-- Scan of the given slot ids for the first free one
(in_use byte = 0). -/
def findFree (p : Page) : List Nat → Nat
  | [] => p.get_num_slots
  | i :: rest =>
    if p.get_slot_in_use i = some 0 then i else findFree p rest

/-- Lowest free slot id, or num_slots if all are in use. -/
def Page.find_lowest_free_slot_id (p : Page) : Nat :=
  findFree p (List.range p.get_num_slots)

/-- Slot id and length for every live slot. -/
def Page.iter_used_slots (p : Page) : List (Nat × Nat) :=
  (List.range p.get_num_slots).filterMap (fun i =>
    if p.get_slot_in_use i = some 1 then
      (p.get_slot_offset_length i).map (fun ol => (i, ol.2))
    else none)

/-- Total header size including all slot entries. -/
def Page.get_header_size (p : Page) : Nat :=
  8 + p.get_num_slots * 6

/-- Free bytes remaining (saturating subtraction, as in the source). -/
def Page.get_free_space (p : Page) : Nat :=
  PAGE_SIZE - p.get_header_size - (p.iter_used_slots.map (fun e => e.2)).sum

/-- (slot_id, offset, length) for every live slot, in slot-id order. -/
def compactUsed (p : Page) : List (Nat × Nat × Nat) :=
  (List.range p.get_num_slots).filterMap (fun i =>
    if p.get_slot_in_use i = some 1 then
      (p.get_slot_offset_length i).map (fun ol => (i, ol.1, ol.2))
    else none)

/-- Stable insertion into a list sorted by the stored offset (the .2.1
field).  An element is placed before the first element with a key at least
its own: it comes from an earlier position of the unsorted list. -/
def sortedInsertByOff (e : Nat × Nat × Nat) :
    List (Nat × Nat × Nat) → List (Nat × Nat × Nat)
  | [] => [e]
  | a :: rest =>
    if e.2.1 ≤ a.2.1 then e :: a :: rest else a :: sortedInsertByOff e rest

/-- Stable sort by stored offset: models Vec::sort_by_key on the offset,
which is a stable sort; the output of a stable sort is uniquely determined,
so this structurally recursive insertion sort computes the same list. -/
def sortByOff : List (Nat × Nat × Nat) → List (Nat × Nat × Nat)
  | [] => []
  | e :: rest => sortedInsertByOff e (sortByOff rest)

/-- One step of the compaction walk: move one live payload to write_pos and
rewrite its slot entry. -/
def compactStep (st : Page × Nat) (e : Nat × Nat × Nat) : Page × Nat :=
  let q := st.1
  let write_pos := st.2
  let q1 : Page :=
    if e.2.1 ≠ write_pos then ⟨copyWithin q.data e.2.1 e.2.2 write_pos⟩ else q
  let q2 := q1.write_slot e.1 write_pos e.2.2 1
  (q2, write_pos + e.2.2)

/-- Moves all live records to body start and resets free_start. -/
def Page.compact (p : Page) : Page :=
  let body_start := 8 + p.get_num_slots * 6
  let used := sortByOff (compactUsed p)
  let st := used.foldl compactStep (p, body_start)
  st.1.set_free_start st.2

/-- One step of the offset-bump loop of shift_body_for_new_slot. -/
def bumpStep (q : Page) (slot_id : Nat) : Page :=
  if q.get_slot_in_use slot_id = some 1 then
    match q.get_slot_offset_length slot_id with
    | some ol => q.write_slot slot_id (ol.1 + 6) ol.2 1
    | none => q
  else q

/-- Shifts the body right by 6 for a new slot entry and
bumps all existing live slot offsets to match. -/
def Page.shift_body_for_new_slot (p : Page) : Page :=
  let num_slots := p.get_num_slots
  let old_body_start := 8 + num_slots * 6
  let new_body_start := old_body_start + 6
  let free_start := p.get_free_start
  let body_len := free_start - old_body_start
  let p1 : Page :=
    if body_len > 0 then
      ⟨copyWithin p.data old_body_start (min body_len (PAGE_SIZE - new_body_start))
          new_body_start⟩
    else p
  let p2 : Page := ⟨storeBytes p1.data old_body_start 6 0⟩
  let p3 := (List.range num_slots).foldl bumpStep p2
  p3.set_free_start (min (free_start + 6) PAGE_SIZE)

/-- HeapPage::add_value.  The returned page is the state of &mut self after
the call (also on the None paths). -/
def Page.add_value (p : Page) (bytes : Bytes) : Option Nat × Page :=
  let value_len := bytes.len
  if value_len > PAGE_SIZE then (none, p)
  else
    let slot_id := p.find_lowest_free_slot_id
    let num_slots := p.get_num_slots
    let extra_header := if slot_id ≥ num_slots then 6 else 0
    if p.get_free_space < value_len + extra_header then (none, p)
    else
      let free_start := p.get_free_start
      let contiguous_space := PAGE_SIZE - (free_start + extra_header)
      let p1 := if contiguous_space < value_len then p.compact else p
      let p2 :=
        if slot_id ≥ num_slots then
          ((if num_slots > 0 then p1.shift_body_for_new_slot else p1).set_num_slots
            (num_slots + 1))
        else p1
      let insert_offset := p2.get_free_start
      if insert_offset + value_len > PAGE_SIZE then (none, p2)
      else
        let p3 : Page := ⟨storeBytes p2.data insert_offset value_len bytes.val⟩
        let p4 := p3.write_slot slot_id insert_offset value_len 1
        (some slot_id, p4.set_free_start (insert_offset + value_len))

/-- HeapPage::get_value. -/
def Page.get_value (p : Page) (slot_id : Nat) : Option Bytes :=
  match p.get_slot_in_use slot_id with
  | none => none
  | some u =>
    if u ≠ 1 then none
    else
      match p.get_slot_offset_length slot_id with
      | none => none
      | some ol =>
        if ol.1 + ol.2 > PAGE_SIZE then none
        else some (extract p.data ol.1 ol.2)

/-- HeapPage::delete_value.  The returned page is the state of &mut self
after the call (unchanged on the None paths). -/
def Page.delete_value (p : Page) (slot_id : Nat) : Option Unit × Page :=
  if slot_id ≥ p.get_num_slots then (none, p)
  else
    match p.get_slot_in_use slot_id with
    | none => (none, p)
    | some u =>
      if u ≠ 1 then (none, p)
      else (some (), p.set_slot_in_use slot_id 0)

/-- The consuming iterator (HeapPageIntoIter). -/
structure HeapPageIntoIter where
  page : Page
  current_slot : Nat
  num_slots : Nat
deriving DecidableEq

/-- The while loop inside HeapPageIntoIter::next: first live slot at or
after cur, together with the slot position after it.  The fuel argument is
exactly the number of remaining loop iterations, so the recursion is
structural. -/
def nextLoopFuel (p : Page) (num_slots : Nat) : Nat → Nat → Option ((Bytes × Nat) × Nat)
  | 0, _ => none
  | fuel + 1, cur =>
    if cur < num_slots then
      match p.get_value cur with
      | some v => some ((v, cur), cur + 1)
      | none => nextLoopFuel p num_slots fuel (cur + 1)
    else none

/-- HeapPageIntoIter::next. -/
def HeapPageIntoIter.next (it : HeapPageIntoIter) :
    Option ((Bytes × Nat) × HeapPageIntoIter) :=
  (nextLoopFuel it.page it.num_slots (it.num_slots - it.current_slot) it.current_slot).map
    (fun x => (x.1, ⟨it.page, x.2, it.num_slots⟩))

/-- IntoIterator for Page: num_slots is read at construction time. -/
def Page.intoIter (p : Page) : HeapPageIntoIter :=
  ⟨p, 0, p.get_num_slots⟩

/-- All items produced by repeatedly calling next, up to the given bound on
the number of calls that can yield. -/
def drainFuel : Nat → HeapPageIntoIter → List (Bytes × Nat)
  | 0, _ => []
  | fuel + 1, it =>
    match it.next with
    | none => []
    | some (x, it2) => x :: drainFuel fuel it2

/-- The complete output of the consuming iterator of a page: at most
num_slots items can ever be yielded. -/
def Page.iterItems (p : Page) : List (Bytes × Nat) :=
  drainFuel p.get_num_slots p.intoIter

/-- The page state of add_value after the possible compaction, body shift
and num_slots bump, before the final bounds check and the writes.  This is
not a function of the source; it names an intermediate state of add_value
for the proofs (add_value_eq below shows the correspondence). -/
def addPrep (p : Page) (b : Bytes) : Page :=
  let slot_id := p.find_lowest_free_slot_id
  let num_slots := p.get_num_slots
  let extra_header := if slot_id ≥ num_slots then 6 else 0
  let free_start := p.get_free_start
  let contiguous_space := PAGE_SIZE - (free_start + extra_header)
  let p1 := if contiguous_space < b.len then p.compact else p
  if slot_id ≥ num_slots then
    ((if num_slots > 0 then p1.shift_body_for_new_slot else p1).set_num_slots
      (num_slots + 1))
  else p1

/-- Total byte length of the live records of a page. -/
def usedSum (p : Page) : Nat := (p.iter_used_slots.map (fun e => e.2)).sum

/-- Folding a sequence of delete_value calls over a page. -/
def applyDeletes (p : Page) (ts : List Nat) : Page :=
  ts.foldl (fun q t => (q.delete_value t).2) p

/-- Total length of the records of a (slot_id, offset, length) list. -/
def sumLens (l : List (Nat × Nat × Nat)) : Nat := (l.map (fun e => e.2.2)).sum

/-- The live payloads are already packed contiguously starting at
body_start, in the order compaction walks them (ascending stored offset,
ties in slot-id order), with free_start just past the last live payload. -/
abbrev PackedAt (p : Page) : Prop :=
  (∀ k, k < (sortByOff (compactUsed p)).length →
      ((sortByOff (compactUsed p)).getD k (0, 0, 0)).2.1
        = 8 + p.get_num_slots * 6 + sumLens ((sortByOff (compactUsed p)).take k))
  ∧ readU16 p.data 4 = 8 + p.get_num_slots * 6 + sumLens (sortByOff (compactUsed p))
  ∧ 8 + p.get_num_slots * 6 + sumLens (sortByOff (compactUsed p)) ≤ PAGE_SIZE

/-! ### Concrete pages used to exercise the edge cases of the code.

The chain pShift0..pShift4 reaches a page whose free_start is 4091 with all
slots live; the zero-length insert pShift3 -> pShift4 then needs a new slot
entry, and the 6-byte body shift truncates (4071 body bytes, room for 4070),
corrupting live slot 0.  The chain pTie0..pTie5 reaches a page with a
zero-length live record whose stored offset ties with a later record after
one compaction, on which compact is not idempotent. -/

def pShift0 : Page := ((Page.new 0).add_value (repBytes 3000 1)).2

def pShift1 : Page := (pShift0.add_value (repBytes 500 2)).2

def pShift2 : Page := (pShift1.delete_value 0).2

def pShift3 : Page := (pShift2.add_value (repBytes 571 7)).2

def pShift4 : Page := (pShift3.add_value ⟨0, 0⟩).2

def pTie0 : Page := ((Page.new 0).add_value (repBytes 30 3)).2

def pTie1 : Page := (pTie0.add_value ⟨0, 0⟩).2

def pTie2 : Page := (pTie1.add_value (repBytes 40 4)).2

def pTie3 : Page := (pTie2.delete_value 0).2

def pTie4 : Page := (pTie3.add_value (repBytes 30 5)).2

def pTie5 : Page := (pTie4.delete_value 2).2

/-- First stage of shift_body_for_new_slot: the clamped 6-byte body copy
(identity when the body is empty). -/
def shiftStage1 (p : Page) : Page :=
  if p.get_free_start - (8 + p.get_num_slots * 6) > 0 then
    ⟨copyWithin p.data (8 + p.get_num_slots * 6)
        (min (p.get_free_start - (8 + p.get_num_slots * 6))
          (PAGE_SIZE - (8 + p.get_num_slots * 6 + 6)))
        (8 + p.get_num_slots * 6 + 6)⟩
  else p

/-- Second stage of shift_body_for_new_slot: zeroing the 6 bytes of the
future slot entry. -/
def shiftStage2 (p : Page) : Page :=
  ⟨storeBytes (shiftStage1 p).data (8 + p.get_num_slots * 6) 6 0⟩

/-- The insert pipeline with the body shift omitted: the spec says this is
what add_value amounts to when num_slots = 0 (no shift is performed). -/
def addValueNoShift (p : Page) (bytes : Bytes) : Option Nat × Page :=
  let value_len := bytes.len
  if value_len > PAGE_SIZE then (none, p)
  else
    let slot_id := p.find_lowest_free_slot_id
    let num_slots := p.get_num_slots
    let extra_header := if slot_id ≥ num_slots then 6 else 0
    if p.get_free_space < value_len + extra_header then (none, p)
    else
      let free_start := p.get_free_start
      let contiguous_space := PAGE_SIZE - (free_start + extra_header)
      let p1 := if contiguous_space < value_len then p.compact else p
      let p2 :=
        if slot_id ≥ num_slots then p1.set_num_slots (num_slots + 1)
        else p1
      let insert_offset := p2.get_free_start
      if insert_offset + value_len > PAGE_SIZE then (none, p2)
      else
        let p3 : Page := ⟨storeBytes p2.data insert_offset value_len bytes.val⟩
        let p4 := p3.write_slot slot_id insert_offset value_len 1
        (some slot_id, p4.set_free_start (insert_offset + value_len))

/-! ## Arithmetic toolkit: reading byte ranges of a buffer across stores -/

theorem pow256_pos (k : Nat) : 0 < 256 ^ k := Nat.pow_pos (by norm_num)

theorem pow256_split (q a : Nat) (h : q ≤ a) :
    (256 : Nat) ^ a = 256 ^ (a - q) * 256 ^ q := by
  rw [← pow_add]; congr 1; omega

theorem rangeVal_lt (d pos n : Nat) : rangeVal d pos n < 256 ^ n :=
  Nat.mod_lt _ (pow256_pos n)

theorem byteAt_lt (d i : Nat) : byteAt d i < 256 := Nat.mod_lt _ (by norm_num)

theorem byteAt_eq_rangeVal (d i : Nat) : byteAt d i = rangeVal d i 1 := by
  simp [byteAt, rangeVal]

theorem readU16_eq_rangeVal (d off : Nat) : readU16 d off = rangeVal d off 2 := by
  unfold readU16 byteAt rangeVal
  have e1 : (256 : Nat) ^ (off + 1) = 256 ^ off * 256 := by rw [pow_add, pow_one]
  rw [e1, ← Nat.div_div_eq_div_mul]
  have e2 : (256 : Nat) ^ 2 = 256 * 256 := by norm_num
  rw [e2, Nat.mod_mul]

theorem readU16_lt (d off : Nat) : readU16 d off < 65536 := by
  have h := rangeVal_lt d off 2
  rw [readU16_eq_rangeVal]
  simpa using h

/-- Dividing x + s * 256 ^ a by the smaller power 256 ^ q. -/
theorem add_mul_pow_div (x s q a : Nat) (h : q ≤ a) :
    (x + s * 256 ^ a) / 256 ^ q = x / 256 ^ q + s * 256 ^ (a - q) := by
  rw [pow256_split q a h, ← Nat.mul_assoc, Nat.add_mul_div_right _ _ (pow256_pos q)]

/-- x + s * 256 ^ a modulo the smaller power 256 ^ m. -/
theorem add_mul_pow_mod (x s m a : Nat) (h : m ≤ a) :
    (x + s * 256 ^ a) % 256 ^ m = x % 256 ^ m := by
  rw [pow256_split m a h, ← Nat.mul_assoc, Nat.add_mul_mod_self_right]

/-- Dividing x + s * 256 ^ a by a larger power when x < 256 ^ a. -/
theorem add_mul_pow_div_ge (x s a q : Nat) (hx : x < 256 ^ a) (h : a ≤ q) :
    (x + s * 256 ^ a) / 256 ^ q = s / 256 ^ (q - a) := by
  have e1 : (256 : Nat) ^ q = 256 ^ a * 256 ^ (q - a) := by
    rw [← pow_add]; congr 1; omega
  rw [e1, ← Nat.div_div_eq_div_mul, Nat.add_mul_div_right _ _ (pow256_pos a),
    Nat.div_eq_of_lt hx, Nat.zero_add]

/-- A range read looks only at the bytes below q + m. -/
theorem mod_pow_div_mod (x k q m : Nat) (h : q + m ≤ k) :
    x % 256 ^ k / 256 ^ q % 256 ^ m = x / 256 ^ q % 256 ^ m := by
  conv_rhs => rw [← Nat.div_add_mod x (256 ^ k), Nat.mul_comm]
  rw [add_comm, add_mul_pow_div _ _ _ _ (by omega), add_mul_pow_mod _ _ _ _ (by omega)]

theorem storeBytes_eq (d pos n w : Nat) (h : pos + n ≤ PAGE_SIZE) :
    storeBytes d pos n w =
      d % 256 ^ pos + (w % 256 ^ n + d / 256 ^ (pos + n) * 256 ^ n) * 256 ^ pos := by
  unfold storeBytes
  rw [if_pos h, pow_add]
  ring

theorem storeBytes_of_not_le (d pos n w : Nat) (h : ¬ pos + n ≤ PAGE_SIZE) :
    storeBytes d pos n w = d := by
  unfold storeBytes
  rw [if_neg h]

theorem rangeVal_storeBytes_self (d pos n w : Nat) (h : pos + n ≤ PAGE_SIZE) :
    rangeVal (storeBytes d pos n w) pos n = w % 256 ^ n := by
  rw [storeBytes_eq d pos n w h]
  unfold rangeVal
  have e0 : (256 : Nat) ^ pos = 256 ^ (pos - pos) * 256 ^ pos := by norm_num
  rw [add_mul_pow_div _ _ _ _ (Nat.le_refl pos), Nat.sub_self, pow_zero, Nat.mul_one,
    Nat.div_eq_of_lt (Nat.mod_lt _ (pow256_pos pos)), Nat.zero_add,
    add_mul_pow_mod _ _ _ _ (Nat.le_refl n), Nat.mod_mod_of_dvd _ dvd_rfl]

theorem rangeVal_storeBytes_lo (d pos n w q m : Nat) (h : pos + n ≤ PAGE_SIZE)
    (hq : q + m ≤ pos) :
    rangeVal (storeBytes d pos n w) q m = rangeVal d q m := by
  rw [storeBytes_eq d pos n w h]
  unfold rangeVal
  rw [add_mul_pow_div _ _ _ _ (by omega), add_mul_pow_mod _ _ _ _ (by omega),
    mod_pow_div_mod _ _ _ _ hq]

/-- The low part of a store stays below 256 ^ (pos + n). -/
theorem lowpart_lt (d pos n w : Nat) :
    d % 256 ^ pos + w % 256 ^ n * 256 ^ pos < 256 ^ (pos + n) := by
  have h1 : d % 256 ^ pos < 256 ^ pos := Nat.mod_lt _ (pow256_pos pos)
  have h2 : w % 256 ^ n < 256 ^ n := Nat.mod_lt _ (pow256_pos n)
  calc d % 256 ^ pos + w % 256 ^ n * 256 ^ pos
      < 256 ^ pos + w % 256 ^ n * 256 ^ pos := by omega
    _ = (1 + w % 256 ^ n) * 256 ^ pos := by ring
    _ ≤ 256 ^ n * 256 ^ pos := Nat.mul_le_mul_right _ (by omega)
    _ = 256 ^ (pos + n) := by rw [← pow_add]; congr 1; omega

theorem rangeVal_storeBytes_hi (d pos n w q m : Nat) (h : pos + n ≤ PAGE_SIZE)
    (hq : pos + n ≤ q) :
    rangeVal (storeBytes d pos n w) q m = rangeVal d q m := by
  unfold storeBytes
  rw [if_pos h]
  unfold rangeVal
  rw [add_mul_pow_div_ge _ _ _ _ (lowpart_lt d pos n w) hq,
    Nat.div_div_eq_div_mul, ← pow_add]
  have e : pos + n + (q - (pos + n)) = q := by omega
  rw [e]

theorem rangeVal_storeBytes_mid (d pos n w q m : Nat) (h : pos + n ≤ PAGE_SIZE)
    (hq1 : pos ≤ q) (hq2 : q + m ≤ pos + n) :
    rangeVal (storeBytes d pos n w) q m = w / 256 ^ (q - pos) % 256 ^ m := by
  rw [storeBytes_eq d pos n w h]
  unfold rangeVal
  rw [add_mul_pow_div_ge _ _ _ _ (Nat.mod_lt _ (pow256_pos pos)) hq1,
    add_mul_pow_div _ _ _ _ (by omega), add_mul_pow_mod _ _ _ _ (by omega),
    mod_pow_div_mod _ _ _ _ (by omega)]

/-- Stores preserve the buffer bound. -/
theorem storeBytes_lt (d pos n w : Nat) (hd : d < 256 ^ PAGE_SIZE) :
    storeBytes d pos n w < 256 ^ PAGE_SIZE := by
  unfold storeBytes
  split
  case isTrue h =>
    have hlow := lowpart_lt d pos n w
    have hh : d / 256 ^ (pos + n) < 256 ^ (PAGE_SIZE - (pos + n)) := by
      rw [Nat.div_lt_iff_lt_mul (pow256_pos (pos + n)), ← pow_add]
      have e : PAGE_SIZE - (pos + n) + (pos + n) = PAGE_SIZE := by omega
      rw [e]; exact hd
    calc d % 256 ^ pos + w % 256 ^ n * 256 ^ pos + d / 256 ^ (pos + n) * 256 ^ (pos + n)
        < 256 ^ (pos + n) + d / 256 ^ (pos + n) * 256 ^ (pos + n) := by omega
      _ = (1 + d / 256 ^ (pos + n)) * 256 ^ (pos + n) := by ring
      _ ≤ 256 ^ (PAGE_SIZE - (pos + n)) * 256 ^ (pos + n) := Nat.mul_le_mul_right _ (by omega)
      _ = 256 ^ PAGE_SIZE := by rw [← pow_add]; congr 1; omega
  case isFalse h => exact hd

/-- Bytes at or above PAGE_SIZE of a bounded buffer read zero. -/
theorem rangeVal_of_ge (d q m : Nat) (hd : d < 256 ^ PAGE_SIZE) (h : PAGE_SIZE ≤ q) :
    rangeVal d q m = 0 := by
  unfold rangeVal
  have : d / 256 ^ q = 0 :=
    Nat.div_eq_of_lt (lt_of_lt_of_le hd (Nat.pow_le_pow_right (by norm_num) h))
  rw [this, Nat.zero_mod]

/-- Unconditional frame: a store never changes a disjoint range. -/
theorem rangeVal_storeBytes_out (d pos n w q m : Nat)
    (hdisj : q + m ≤ pos ∨ pos + n ≤ q) :
    rangeVal (storeBytes d pos n w) q m = rangeVal d q m := by
  by_cases h : pos + n ≤ PAGE_SIZE
  · rcases hdisj with hlo | hhi
    · exact rangeVal_storeBytes_lo d pos n w q m h hlo
    · exact rangeVal_storeBytes_hi d pos n w q m h hhi
  · rw [storeBytes_of_not_le d pos n w h]

theorem byteAt_storeBytes_out (d pos n w j : Nat)
    (hdisj : j + 1 ≤ pos ∨ pos + n ≤ j) :
    byteAt (storeBytes d pos n w) j = byteAt d j := by
  rw [byteAt_eq_rangeVal, byteAt_eq_rangeVal]
  exact rangeVal_storeBytes_out d pos n w j 1 hdisj

theorem byteAt_storeBytes_mid (d pos n w j : Nat) (h : pos + n ≤ PAGE_SIZE)
    (h1 : pos ≤ j) (h2 : j + 1 ≤ pos + n) :
    byteAt (storeBytes d pos n w) j = w / 256 ^ (j - pos) % 256 := by
  rw [byteAt_eq_rangeVal]
  rw [rangeVal_storeBytes_mid d pos n w j 1 h h1 h2]
  simp [byteAt]

theorem readU16_storeBytes_out (d pos n w off : Nat)
    (hdisj : off + 2 ≤ pos ∨ pos + n ≤ off) :
    readU16 (storeBytes d pos n w) off = readU16 d off := by
  rw [readU16_eq_rangeVal, readU16_eq_rangeVal]
  exact rangeVal_storeBytes_out d pos n w off 2 hdisj

theorem readU16_storeBytes_self (d off v : Nat) (h : off + 2 ≤ PAGE_SIZE) :
    readU16 (storeBytes d off 2 v) off = v % 65536 := by
  rw [readU16_eq_rangeVal, rangeVal_storeBytes_self d off 2 v h]
  norm_num

theorem copyWithin_lt (d src len dst : Nat) (hd : d < 256 ^ PAGE_SIZE) :
    copyWithin d src len dst < 256 ^ PAGE_SIZE := by
  unfold copyWithin
  split
  · exact storeBytes_lt _ _ _ _ hd
  · exact hd

/-! ## Header-field and slot-entry lemmas for the primitive page writes -/

theorem slot_meta_offset_eq (s : Nat) : slot_meta_offset s = 8 + s * 6 := rfl

theorem get_free_start_eq (p : Page) :
    p.get_free_start =
      min (max (readU16 p.data 4) (8 + p.get_num_slots * 6)) PAGE_SIZE := by
  simp only [Page.get_free_start]
  split_ifs with h <;> congr 1 <;> omega

theorem get_free_start_le (p : Page) : p.get_free_start ≤ PAGE_SIZE := by
  rw [get_free_start_eq]
  exact Nat.min_le_right _ _

/-! ### set_free_start -/

theorem num_slots_set_free_start (p : Page) (x : Nat) :
    (p.set_free_start x).get_num_slots = p.get_num_slots := by
  unfold Page.set_free_start Page.get_num_slots writeU16
  dsimp only
  exact readU16_storeBytes_out _ _ _ _ _ (Or.inl (by norm_num))

theorem storedfs_set_free_start (p : Page) (x : Nat) :
    readU16 (p.set_free_start x).data 4 = min x PAGE_SIZE := by
  unfold Page.set_free_start writeU16
  dsimp only
  rw [readU16_storeBytes_self p.data 4 (min x PAGE_SIZE) (by norm_num)]
  exact Nat.mod_eq_of_lt (lt_of_le_of_lt (Nat.min_le_right _ _) (by norm_num))

theorem slot_entry_set_free_start (p : Page) (x s : Nat) :
    readU16 (p.set_free_start x).data (slot_meta_offset s + 0)
        = readU16 p.data (slot_meta_offset s + 0)
    ∧ readU16 (p.set_free_start x).data (slot_meta_offset s + 2)
        = readU16 p.data (slot_meta_offset s + 2)
    ∧ byteAt (p.set_free_start x).data (slot_meta_offset s + 4)
        = byteAt p.data (slot_meta_offset s + 4) := by
  unfold Page.set_free_start writeU16
  dsimp only
  rw [slot_meta_offset_eq]
  refine ⟨readU16_storeBytes_out _ _ _ _ _ (Or.inr ?_),
    readU16_storeBytes_out _ _ _ _ _ (Or.inr ?_),
    byteAt_storeBytes_out _ _ _ _ _ (Or.inr ?_)⟩ <;> omega

theorem rangeVal_set_free_start (p : Page) (x q m : Nat) (h : 6 ≤ q) :
    rangeVal (p.set_free_start x).data q m = rangeVal p.data q m := by
  unfold Page.set_free_start writeU16
  dsimp only
  exact rangeVal_storeBytes_out _ _ _ _ _ _ (Or.inr (by omega))

theorem wf_set_free_start (p : Page) (x : Nat) (hd : p.Wf) : (p.set_free_start x).Wf := by
  unfold Page.set_free_start writeU16
  simp only [Page.Wf]
  exact storeBytes_lt _ _ _ _ hd

/-! ### set_num_slots -/

theorem num_slots_set_num_slots (p : Page) (n : Nat) :
    (p.set_num_slots n).get_num_slots = n % 65536 := by
  unfold Page.set_num_slots Page.get_num_slots writeU16
  dsimp only
  exact readU16_storeBytes_self _ _ _ (by norm_num)

theorem storedfs_set_num_slots (p : Page) (n : Nat) :
    readU16 (p.set_num_slots n).data 4 = readU16 p.data 4 := by
  unfold Page.set_num_slots writeU16
  dsimp only
  exact readU16_storeBytes_out _ _ _ _ _ (Or.inr (by norm_num))

theorem slot_entry_set_num_slots (p : Page) (n s : Nat) :
    readU16 (p.set_num_slots n).data (slot_meta_offset s + 0)
        = readU16 p.data (slot_meta_offset s + 0)
    ∧ readU16 (p.set_num_slots n).data (slot_meta_offset s + 2)
        = readU16 p.data (slot_meta_offset s + 2)
    ∧ byteAt (p.set_num_slots n).data (slot_meta_offset s + 4)
        = byteAt p.data (slot_meta_offset s + 4) := by
  unfold Page.set_num_slots writeU16
  dsimp only
  rw [slot_meta_offset_eq]
  refine ⟨readU16_storeBytes_out _ _ _ _ _ (Or.inr ?_),
    readU16_storeBytes_out _ _ _ _ _ (Or.inr ?_),
    byteAt_storeBytes_out _ _ _ _ _ (Or.inr ?_)⟩ <;> omega

theorem rangeVal_set_num_slots (p : Page) (n q m : Nat) (h : 4 ≤ q) :
    rangeVal (p.set_num_slots n).data q m = rangeVal p.data q m := by
  unfold Page.set_num_slots writeU16
  dsimp only
  exact rangeVal_storeBytes_out _ _ _ _ _ _ (Or.inr (by omega))

theorem wf_set_num_slots (p : Page) (n : Nat) (hd : p.Wf) : (p.set_num_slots n).Wf := by
  unfold Page.set_num_slots writeU16
  simp only [Page.Wf]
  exact storeBytes_lt _ _ _ _ hd

/-! ### set_slot_in_use -/

theorem num_slots_set_slot_in_use (p : Page) (s u : Nat) :
    (p.set_slot_in_use s u).get_num_slots = p.get_num_slots := by
  unfold Page.set_slot_in_use Page.get_num_slots
  dsimp only
  rw [slot_meta_offset_eq]
  exact readU16_storeBytes_out _ _ _ _ _ (Or.inl (by omega))

theorem storedfs_set_slot_in_use (p : Page) (s u : Nat) :
    readU16 (p.set_slot_in_use s u).data 4 = readU16 p.data 4 := by
  unfold Page.set_slot_in_use
  dsimp only
  rw [slot_meta_offset_eq]
  exact readU16_storeBytes_out _ _ _ _ _ (Or.inl (by omega))

theorem byteAt_set_slot_in_use_self (p : Page) (s u : Nat)
    (h : slot_meta_offset s + 5 ≤ PAGE_SIZE) :
    byteAt (p.set_slot_in_use s u).data (slot_meta_offset s + 4) = u % 256 := by
  unfold Page.set_slot_in_use
  dsimp only
  rw [byteAt_storeBytes_mid _ _ _ _ _ (by omega) (by omega) (by omega)]
  simp

theorem byteAt_set_slot_in_use_out (p : Page) (s u j : Nat)
    (h : j ≠ slot_meta_offset s + 4) :
    byteAt (p.set_slot_in_use s u).data j = byteAt p.data j := by
  unfold Page.set_slot_in_use
  dsimp only
  exact byteAt_storeBytes_out _ _ _ _ _ (by omega)

theorem slot_entry_set_slot_in_use_other (p : Page) (s u t : Nat) (h : t ≠ s) :
    readU16 (p.set_slot_in_use s u).data (slot_meta_offset t + 0)
        = readU16 p.data (slot_meta_offset t + 0)
    ∧ readU16 (p.set_slot_in_use s u).data (slot_meta_offset t + 2)
        = readU16 p.data (slot_meta_offset t + 2)
    ∧ byteAt (p.set_slot_in_use s u).data (slot_meta_offset t + 4)
        = byteAt p.data (slot_meta_offset t + 4) := by
  unfold Page.set_slot_in_use
  dsimp only
  rw [slot_meta_offset_eq, slot_meta_offset_eq]
  rcases Nat.lt_or_ge t s with hts | hts
  · refine ⟨readU16_storeBytes_out _ _ _ _ _ (Or.inl ?_),
      readU16_storeBytes_out _ _ _ _ _ (Or.inl ?_),
      byteAt_storeBytes_out _ _ _ _ _ (Or.inl ?_)⟩ <;> omega
  · have hts2 : s < t := by omega
    refine ⟨readU16_storeBytes_out _ _ _ _ _ (Or.inr ?_),
      readU16_storeBytes_out _ _ _ _ _ (Or.inr ?_),
      byteAt_storeBytes_out _ _ _ _ _ (Or.inr ?_)⟩ <;> omega

theorem slot_offset_length_set_slot_in_use_self (p : Page) (s u : Nat) :
    readU16 (p.set_slot_in_use s u).data (slot_meta_offset s + 0)
        = readU16 p.data (slot_meta_offset s + 0)
    ∧ readU16 (p.set_slot_in_use s u).data (slot_meta_offset s + 2)
        = readU16 p.data (slot_meta_offset s + 2) := by
  unfold Page.set_slot_in_use
  dsimp only
  rw [slot_meta_offset_eq]
  exact ⟨readU16_storeBytes_out _ _ _ _ _ (Or.inl (by omega)),
    readU16_storeBytes_out _ _ _ _ _ (Or.inl (by omega))⟩

theorem rangeVal_set_slot_in_use_out (p : Page) (s u q m : Nat)
    (hdisj : q + m ≤ slot_meta_offset s + 4 ∨ slot_meta_offset s + 5 ≤ q) :
    rangeVal (p.set_slot_in_use s u).data q m = rangeVal p.data q m := by
  unfold Page.set_slot_in_use
  dsimp only
  exact rangeVal_storeBytes_out _ _ _ _ _ _ (by omega)

theorem wf_set_slot_in_use (p : Page) (s u : Nat) (hd : p.Wf) : (p.set_slot_in_use s u).Wf := by
  unfold Page.set_slot_in_use
  simp only [Page.Wf]
  exact storeBytes_lt _ _ _ _ hd

/-! ### write_slot -/

theorem num_slots_write_slot (p : Page) (s off len u : Nat) :
    (p.write_slot s off len u).get_num_slots = p.get_num_slots := by
  unfold Page.write_slot Page.get_num_slots writeU16
  dsimp only
  rw [slot_meta_offset_eq]
  rw [readU16_storeBytes_out _ _ _ _ _ (Or.inl (by omega)),
    readU16_storeBytes_out _ _ _ _ _ (Or.inl (by omega)),
    readU16_storeBytes_out _ _ _ _ _ (Or.inl (by omega))]

theorem storedfs_write_slot (p : Page) (s off len u : Nat) :
    readU16 (p.write_slot s off len u).data 4 = readU16 p.data 4 := by
  unfold Page.write_slot writeU16
  dsimp only
  rw [slot_meta_offset_eq]
  rw [readU16_storeBytes_out _ _ _ _ _ (Or.inl (by omega)),
    readU16_storeBytes_out _ _ _ _ _ (Or.inl (by omega)),
    readU16_storeBytes_out _ _ _ _ _ (Or.inl (by omega))]

theorem slot_entry_write_slot_self (p : Page) (s off len u : Nat)
    (h : slot_meta_offset s + 5 ≤ PAGE_SIZE) :
    readU16 (p.write_slot s off len u).data (slot_meta_offset s + 0) = off % 65536
    ∧ readU16 (p.write_slot s off len u).data (slot_meta_offset s + 2) = len % 65536
    ∧ byteAt (p.write_slot s off len u).data (slot_meta_offset s + 4) = u % 256 := by
  unfold Page.write_slot writeU16
  dsimp only
  rw [slot_meta_offset_eq] at *
  refine ⟨?_, ?_, ?_⟩
  · rw [readU16_storeBytes_out _ _ _ _ _ (Or.inl (by omega)),
      readU16_storeBytes_out _ _ _ _ _ (Or.inl (by omega))]
    rw [show 8 + s * 6 + 0 = 8 + s * 6 from by omega]
    exact readU16_storeBytes_self _ _ _ (by omega)
  · rw [readU16_storeBytes_out _ _ _ _ _ (Or.inl (by omega))]
    exact readU16_storeBytes_self _ _ _ (by omega)
  · rw [byteAt_storeBytes_mid _ _ _ _ _ (by omega) (by omega) (by omega)]
    simp

theorem slot_entry_write_slot_other (p : Page) (s off len u t : Nat) (h : t ≠ s) :
    readU16 (p.write_slot s off len u).data (slot_meta_offset t + 0)
        = readU16 p.data (slot_meta_offset t + 0)
    ∧ readU16 (p.write_slot s off len u).data (slot_meta_offset t + 2)
        = readU16 p.data (slot_meta_offset t + 2)
    ∧ byteAt (p.write_slot s off len u).data (slot_meta_offset t + 4)
        = byteAt p.data (slot_meta_offset t + 4) := by
  unfold Page.write_slot writeU16
  dsimp only
  rw [slot_meta_offset_eq, slot_meta_offset_eq]
  rcases Nat.lt_or_ge t s with hts | hts
  · refine ⟨?_, ?_, ?_⟩
    · rw [readU16_storeBytes_out _ _ _ _ _ (Or.inl (by omega)),
        readU16_storeBytes_out _ _ _ _ _ (Or.inl (by omega)),
        readU16_storeBytes_out _ _ _ _ _ (Or.inl (by omega))]
    · rw [readU16_storeBytes_out _ _ _ _ _ (Or.inl (by omega)),
        readU16_storeBytes_out _ _ _ _ _ (Or.inl (by omega)),
        readU16_storeBytes_out _ _ _ _ _ (Or.inl (by omega))]
    · rw [byteAt_storeBytes_out _ _ _ _ _ (Or.inl (by omega)),
        byteAt_storeBytes_out _ _ _ _ _ (Or.inl (by omega)),
        byteAt_storeBytes_out _ _ _ _ _ (Or.inl (by omega))]
  · have hts2 : s < t := by omega
    refine ⟨?_, ?_, ?_⟩
    · rw [readU16_storeBytes_out _ _ _ _ _ (Or.inr (by omega)),
        readU16_storeBytes_out _ _ _ _ _ (Or.inr (by omega)),
        readU16_storeBytes_out _ _ _ _ _ (Or.inr (by omega))]
    · rw [readU16_storeBytes_out _ _ _ _ _ (Or.inr (by omega)),
        readU16_storeBytes_out _ _ _ _ _ (Or.inr (by omega)),
        readU16_storeBytes_out _ _ _ _ _ (Or.inr (by omega))]
    · rw [byteAt_storeBytes_out _ _ _ _ _ (Or.inr (by omega)),
        byteAt_storeBytes_out _ _ _ _ _ (Or.inr (by omega)),
        byteAt_storeBytes_out _ _ _ _ _ (Or.inr (by omega))]

theorem rangeVal_write_slot_out (p : Page) (s off len u q m : Nat)
    (hdisj : q + m ≤ slot_meta_offset s ∨ slot_meta_offset s + 5 ≤ q) :
    rangeVal (p.write_slot s off len u).data q m = rangeVal p.data q m := by
  unfold Page.write_slot writeU16
  dsimp only
  rw [slot_meta_offset_eq] at *
  rw [rangeVal_storeBytes_out _ _ _ _ _ _ (by omega),
    rangeVal_storeBytes_out _ _ _ _ _ _ (by omega),
    rangeVal_storeBytes_out _ _ _ _ _ _ (by omega)]

theorem byteAt_write_slot_out (p : Page) (s off len u j : Nat)
    (hdisj : j + 1 ≤ slot_meta_offset s ∨ slot_meta_offset s + 5 ≤ j) :
    byteAt (p.write_slot s off len u).data j = byteAt p.data j := by
  rw [byteAt_eq_rangeVal, byteAt_eq_rangeVal]
  exact rangeVal_write_slot_out p s off len u j 1 (by omega)

theorem wf_write_slot (p : Page) (s off len u : Nat) (hd : p.Wf) :
    (p.write_slot s off len u).Wf := by
  unfold Page.write_slot writeU16
  simp only [Page.Wf]
  exact storeBytes_lt _ _ _ _ (storeBytes_lt _ _ _ _ (storeBytes_lt _ _ _ _ hd))

/-! ## Characterizations of the page operations -/

theorem byteAt_of_ge (d i : Nat) (hd : d < 256 ^ PAGE_SIZE) (h : PAGE_SIZE ≤ i) :
    byteAt d i = 0 := by
  rw [byteAt_eq_rangeVal]
  exact rangeVal_of_ge d i 1 hd h

/-- The two outcomes of delete_value. -/
theorem delete_value_cases (p : Page) (s : Nat) :
    (s < p.get_num_slots ∧ byteAt p.data (slot_meta_offset s + 4) = 1 ∧
       p.delete_value s = (some (), p.set_slot_in_use s 0))
    ∨ ((p.get_num_slots ≤ s ∨ byteAt p.data (slot_meta_offset s + 4) ≠ 1) ∧
       p.delete_value s = (none, p)) := by
  unfold Page.delete_value Page.get_slot_in_use
  by_cases h1 : s ≥ p.get_num_slots
  · right
    refine ⟨Or.inl h1, ?_⟩
    rw [if_pos h1]
  · rw [if_neg h1, if_neg h1]
    dsimp only
    by_cases h2 : byteAt p.data (slot_meta_offset s + 4) = 1
    · left
      refine ⟨by omega, h2, ?_⟩
      rw [if_neg (by simp [h2])]
    · right
      refine ⟨Or.inr h2, ?_⟩
      rw [if_pos h2]

/-- add_value unfolded into its three checks around the mutation addPrep. -/
theorem add_value_eq (p : Page) (b : Bytes) :
    p.add_value b =
      if b.len > PAGE_SIZE then (none, p)
      else if p.get_free_space <
          b.len + (if p.find_lowest_free_slot_id ≥ p.get_num_slots then 6 else 0) then
        (none, p)
      else if (addPrep p b).get_free_start + b.len > PAGE_SIZE then (none, addPrep p b)
      else
        (some p.find_lowest_free_slot_id,
          ((Page.mk (storeBytes (addPrep p b).data ((addPrep p b).get_free_start) b.len
                b.val)).write_slot
              p.find_lowest_free_slot_id ((addPrep p b).get_free_start) b.len
              1).set_free_start
            ((addPrep p b).get_free_start + b.len)) := rfl

/-- findFree over a contiguous index run: minimality and membership. -/
theorem findFree_range' (p : Page) :
    ∀ (k s : Nat), s + k = p.get_num_slots →
      (∀ j, s ≤ j → j < findFree p (List.range' s k) → p.get_slot_in_use j ≠ some 0)
      ∧ (findFree p (List.range' s k) = p.get_num_slots
          ∨ p.get_slot_in_use (findFree p (List.range' s k)) = some 0)
      ∧ s ≤ findFree p (List.range' s k)
      ∧ findFree p (List.range' s k) ≤ p.get_num_slots := by
  intro k
  induction k with
  | zero =>
    intro s hs
    have e : List.range' s 0 = [] := rfl
    rw [e]
    have e2 : findFree p [] = p.get_num_slots := rfl
    rw [e2]
    exact ⟨fun j hj1 hj2 => absurd hj2 (by omega), Or.inl rfl, by omega, by omega⟩
  | succ k ih =>
    intro s hs
    rw [List.range'_succ]
    simp only [findFree]
    by_cases hfree : p.get_slot_in_use s = some 0
    · rw [if_pos hfree]
      exact ⟨fun j hj1 hj2 => by omega, Or.inr hfree, by omega, by omega⟩
    · rw [if_neg hfree]
      have h := ih (s + 1) (by omega)
      refine ⟨fun j hj1 hj2 => ?_, h.2.1, by omega, h.2.2.2⟩
      rcases Nat.eq_or_lt_of_le hj1 with he | hlt
      · rw [← he]; exact hfree
      · exact h.1 j (by omega) hj2

/-- The slot id chosen by the insert path is the least i with i at or above
num_slots or with a free in_use byte. -/
theorem find_lowest_spec (p : Page) :
    (∀ j, j < p.find_lowest_free_slot_id → p.get_slot_in_use j ≠ some 0)
    ∧ (p.find_lowest_free_slot_id = p.get_num_slots
        ∨ p.get_slot_in_use p.find_lowest_free_slot_id = some 0)
    ∧ p.find_lowest_free_slot_id ≤ p.get_num_slots := by
  have h := findFree_range' p p.get_num_slots 0 (by omega)
  unfold Page.find_lowest_free_slot_id
  rw [List.range_eq_range']
  exact ⟨fun j hj => h.1 j (Nat.zero_le j) hj, h.2.1, h.2.2.2⟩

theorem find_lowest_le (p : Page) (i : Nat)
    (hi : p.get_num_slots ≤ i ∨ p.get_slot_in_use i = some 0) :
    p.find_lowest_free_slot_id ≤ i := by
  by_contra hcon
  push_neg at hcon
  have hspec := find_lowest_spec p
  have h1 := hspec.1 i hcon
  have h2 := hspec.2.2
  rcases hi with hge | hfree
  · omega
  · exact h1 hfree

/-! ## Claim theorems -/

/-- C9: Page::from_bytes(p.to_bytes()).to_bytes() == p.to_bytes(), and the
page reconstructed from the bytes is observationally identical: get_page_id,
get_header_size, get_free_space, get_value on every slot id, and iteration
all return the same results. -/
theorem serialization_round_trip (p : Page) :
    (Page.from_bytes p.to_bytes).to_bytes = p.to_bytes
    ∧ (Page.from_bytes p.to_bytes).get_page_id = p.get_page_id
    ∧ (Page.from_bytes p.to_bytes).get_header_size = p.get_header_size
    ∧ (Page.from_bytes p.to_bytes).get_free_space = p.get_free_space
    ∧ (∀ s, (Page.from_bytes p.to_bytes).get_value s = p.get_value s)
    ∧ (Page.from_bytes p.to_bytes).iterItems = p.iterItems :=
  ⟨rfl, rfl, rfl, rfl, fun _ => rfl, rfl⟩

/-- C7: delete_value(s) marks slot s free and returns success exactly when s
is in range and slot s is live; otherwise it returns not-found without
mutation.  A successful delete changes only the in_use byte of slot s: the
payload bytes are not zeroed, the stored free_start does not move, and
num_slots stays the same. -/
theorem delete_value_semantics (p : Page) (s : Nat) (hd : p.Wf) :
    ((p.delete_value s).1 = some () ↔
      s < p.get_num_slots ∧ p.get_slot_in_use s = some 1)
    ∧ ((p.delete_value s).1 = none → (p.delete_value s).2 = p)
    ∧ ((p.delete_value s).1 = some () →
        ((p.delete_value s).2.get_slot_in_use s = some 0
        ∧ (p.delete_value s).2.get_num_slots = p.get_num_slots
        ∧ readU16 (p.delete_value s).2.data 4 = readU16 p.data 4
        ∧ (∀ t, (p.delete_value s).2.get_slot_offset_length t
            = p.get_slot_offset_length t)
        ∧ ∀ j, j ≠ slot_meta_offset s + 4 →
            byteAt (p.delete_value s).2.data j = byteAt p.data j)) := by
  have hcases := delete_value_cases p s
  rcases hcases with ⟨hrange, hlive, heq⟩ | ⟨hfail, heq⟩
  · -- success case
    have hfit : slot_meta_offset s + 5 ≤ PAGE_SIZE := by
      by_contra hcon
      have : byteAt p.data (slot_meta_offset s + 4) = 0 :=
        byteAt_of_ge _ _ hd (by omega)
      omega
    have hns := num_slots_set_slot_in_use p s 0
    refine ⟨?_, ?_, ?_⟩
    · rw [heq]
      constructor
      · intro _
        exact ⟨hrange, by unfold Page.get_slot_in_use; rw [if_neg (by omega), hlive]⟩
      · intro _; rfl
    · rw [heq]; intro hcon; cases hcon
    · intro _
      rw [heq]
      refine ⟨?_, hns, storedfs_set_slot_in_use p s 0, ?_, ?_⟩
      · unfold Page.get_slot_in_use
        rw [hns, if_neg (by omega), byteAt_set_slot_in_use_self p s 0 hfit]
      · intro t
        unfold Page.get_slot_offset_length
        rw [hns]
        by_cases ht : t ≥ p.get_num_slots
        · rw [if_pos ht, if_pos ht]
        · rw [if_neg ht, if_neg ht]
          by_cases hts : t = s
          · rw [hts]
            have h2 := slot_offset_length_set_slot_in_use_self p s 0
            rw [h2.1, h2.2]
          · have h2 := slot_entry_set_slot_in_use_other p s 0 t hts
            rw [h2.1, h2.2.1]
      · intro j hj
        exact byteAt_set_slot_in_use_out p s 0 j hj
  · -- failure case
    refine ⟨?_, ?_, ?_⟩
    · rw [heq]
      constructor
      · intro hcon
        exact absurd hcon (by simp)
      · rintro ⟨hlt, huse⟩
        exfalso
        unfold Page.get_slot_in_use at huse
        rw [if_neg (by omega)] at huse
        have hb : byteAt p.data (slot_meta_offset s + 4) = 1 := by
          injection huse
        rcases hfail with h | h <;> omega
    · intro _; rw [heq]
    · rw [heq]
      intro hcon
      cases hcon

/-- Witness for delete_value_semantics at a concrete page: a fresh page with
one 5-byte record, deleting slot 0. -/
theorem delete_value_semantics_witness :
    (((Page.new 0).add_value (repBytes 5 9)).2).Wf
    ∧ ((((Page.new 0).add_value (repBytes 5 9)).2).delete_value 0).1 = some ()
    ∧ ((((Page.new 0).add_value (repBytes 5 9)).2).delete_value 0).2.get_slot_in_use 0
        = some 0 := by
  have hwf : (((Page.new 0).add_value (repBytes 5 9)).2).Wf := by decide
  have h := delete_value_semantics (((Page.new 0).add_value (repBytes 5 9)).2) 0 hwf
  have hsucc : ((((Page.new 0).add_value (repBytes 5 9)).2).delete_value 0).1 = some () := by
    decide
  exact ⟨hwf, hsucc, (h.2.2 hsucc).1⟩

/-- A successful add_value returns exactly the slot id computed by
find_lowest_free_slot_id on the pre-call page. -/
theorem add_value_fst_eq (p : Page) (b : Bytes) (s : Nat) (q : Page)
    (h : p.add_value b = (some s, q)) : s = p.find_lowest_free_slot_id := by
  rw [add_value_eq] at h
  split_ifs at h <;> simp only [Prod.mk.injEq, Option.some.injEq] at h <;>
    first
      | exact h.1.symm
      | simp at h

/-- C3: the slot id returned by a successful insert is the minimum i such
that either i is at or above num_slots or slot i is currently free
(in_use = 0); consequently, after a successful delete of slot s2, the next
successful insert returns a slot id at most s2. -/
theorem insert_slot_id_minimal (p : Page) (hd : p.Wf) :
    (∀ b s q, p.add_value b = (some s, q) →
      (∀ j, j < s → j < p.get_num_slots ∧ p.get_slot_in_use j ≠ some 0)
      ∧ (p.get_num_slots ≤ s ∨ p.get_slot_in_use s = some 0))
    ∧ (∀ s2 p2 b2 t q2, p.delete_value s2 = (some (), p2) →
        p2.add_value b2 = (some t, q2) → t ≤ s2) := by
  constructor
  · intro b s q h
    have hs := add_value_fst_eq p b s q h
    have hspec := find_lowest_spec p
    subst hs
    refine ⟨fun j hj => ⟨?_, hspec.1 j hj⟩, ?_⟩
    · have := hspec.2.2; omega
    · rcases hspec.2.1 with he | hfree
      · exact Or.inl (by omega)
      · exact Or.inr hfree
  · intro s2 p2 b2 t q2 hdel hadd
    rcases delete_value_cases p s2 with ⟨hrange, hlive, heq⟩ | ⟨_, heq⟩
    · rw [heq] at hdel
      have hp2 : p2 = p.set_slot_in_use s2 0 := by
        rw [Prod.ext_iff] at hdel
        exact hdel.2.symm
      have hfit : slot_meta_offset s2 + 5 ≤ PAGE_SIZE := by
        by_contra hcon
        have : byteAt p.data (slot_meta_offset s2 + 4) = 0 :=
          byteAt_of_ge _ _ hd (by omega)
        omega
      have ht := add_value_fst_eq p2 b2 t q2 hadd
      subst ht
      apply find_lowest_le
      right
      rw [hp2]
      unfold Page.get_slot_in_use
      rw [num_slots_set_slot_in_use, if_neg (by omega),
        byteAt_set_slot_in_use_self p s2 0 hfit]
    · rw [heq] at hdel
      simp at hdel

/-- Witness for insert_slot_id_minimal on the concrete page pTie2 (three
live records): an insert returns the fresh slot id 3; after deleting slot 0
the next insert returns slot id 0. -/
theorem insert_slot_id_minimal_witness :
    pTie2.Wf
    ∧ pTie2.delete_value 0 = (some (), pTie3)
    ∧ pTie3.add_value (repBytes 30 5) = (some 0, pTie4)
    ∧ (0 : Nat) ≤ 0 := by
  have hwf : pTie2.Wf := by decide
  have hdel : pTie2.delete_value 0 = (some (), pTie3) := by decide
  have hadd : pTie3.add_value (repBytes 30 5) = (some 0, pTie4) := by decide
  exact ⟨hwf, hdel, hadd,
    (insert_slot_id_minimal pTie2 hwf).2 0 pTie3 (repBytes 30 5) 0 pTie4 hdel hadd⟩

/-- One unfolding step of the iterator loop. -/
theorem nextLoopFuel_succ (p : Page) (ns f cur : Nat) :
    nextLoopFuel p ns (f + 1) cur =
      if cur < ns then
        match p.get_value cur with
        | some v => some ((v, cur), cur + 1)
        | none => nextLoopFuel p ns f (cur + 1)
      else none := rfl

/-- One unfolding step of drainFuel. -/
theorem drainFuel_succ (f : Nat) (it : HeapPageIntoIter) :
    drainFuel (f + 1) it =
      match it.next with
      | none => []
      | some (x, it2) => x :: drainFuel f it2 := rfl

/-- Draining the iterator from position cur yields exactly the live pairs of
slots cur..num_slots-1, provided the drain bound covers the remaining
positions. -/
theorem drainFuel_spec (p : Page) (ns : Nat) :
    ∀ k cur fuel, ns - cur = k → k ≤ fuel →
      drainFuel fuel ⟨p, cur, ns⟩
        = (List.range' cur (ns - cur)).filterMap
            (fun i => (p.get_value i).map (fun v => (v, i))) := by
  intro k
  induction k using Nat.strong_induction_on with
  | _ k ih =>
    intro cur fuel hk hf
    by_cases hcur : cur < ns
    · have hk1 : 1 ≤ k := by omega
      rcases fuel with _ | f
      · omega
      · have hm : ns - cur = (ns - (cur + 1)) + 1 := by omega
        rcases hval : p.get_value cur with _ | v
        · -- dead slot: the loop skips it
          have hne : HeapPageIntoIter.next ⟨p, cur, ns⟩
              = HeapPageIntoIter.next ⟨p, cur + 1, ns⟩ := by
            unfold HeapPageIntoIter.next
            dsimp only
            rw [hm, nextLoopFuel_succ, if_pos hcur, hval]
          have hstep : drainFuel (f + 1) ⟨p, cur, ns⟩
              = drainFuel (f + 1) ⟨p, cur + 1, ns⟩ := by
            rw [drainFuel_succ, drainFuel_succ, hne]
          rw [hstep, ih (ns - (cur + 1)) (by omega) (cur + 1) (f + 1) rfl (by omega), hm,
            List.range'_succ]
          simp only [List.filterMap_cons, hval, Option.map_none]
          rfl
        · -- live slot: one yield
          have hne : HeapPageIntoIter.next ⟨p, cur, ns⟩
              = some ((v, cur), ⟨p, cur + 1, ns⟩) := by
            unfold HeapPageIntoIter.next
            dsimp only
            rw [hm, nextLoopFuel_succ, if_pos hcur, hval]
            rfl
          have hstep : drainFuel (f + 1) ⟨p, cur, ns⟩
              = (v, cur) :: drainFuel f ⟨p, cur + 1, ns⟩ := by
            rw [drainFuel_succ, hne]
          rw [hstep, ih (ns - (cur + 1)) (by omega) (cur + 1) f rfl (by omega), hm,
            List.range'_succ]
          simp only [List.filterMap_cons, hval, Option.map_some]
          rfl
    · have hk0 : ns - cur = 0 := by omega
      have hnone : HeapPageIntoIter.next ⟨p, cur, ns⟩ = none := by
        unfold HeapPageIntoIter.next
        dsimp only
        rw [hk0]
        rfl
      rcases fuel with _ | f
      · rw [hk0]; rfl
      · have : drainFuel (f + 1) ⟨p, cur, ns⟩ = [] := by
          unfold drainFuel
          rw [hnone]
        rw [this, hk0]
        rfl

/-- C8: the consuming iterator yields exactly the pairs (payload, slot_id)
for the live slots, in strictly ascending slot-id order, skipping free
slots, where each payload equals get_value(slot_id); it is finite, yielding
at most num_slots items. -/
theorem iteration_yields_live_pairs (p : Page) :
    p.iterItems = (List.range p.get_num_slots).filterMap
        (fun i => (p.get_value i).map (fun v => (v, i)))
    ∧ List.Pairwise (fun a b => a.2 < b.2) p.iterItems
    ∧ p.iterItems.length ≤ p.get_num_slots
    ∧ ∀ x ∈ p.iterItems, p.get_value x.2 = some x.1 := by
  have hmain : p.iterItems = (List.range p.get_num_slots).filterMap
      (fun i => (p.get_value i).map (fun v => (v, i))) := by
    unfold Page.iterItems Page.intoIter
    rw [drainFuel_spec p p.get_num_slots (p.get_num_slots - 0) 0 p.get_num_slots rfl
      (by omega)]
    rw [List.range_eq_range']
    norm_num
  refine ⟨hmain, ?_, ?_, ?_⟩
  · rw [hmain]
    rw [List.pairwise_filterMap]
    have hr := List.pairwise_lt_range p.get_num_slots
    apply hr.imp_of_mem
    intro a b _ _ hab x hx y hy
    rcases Option.map_eq_some'.mp hx with ⟨va, _, hva⟩
    rcases Option.map_eq_some'.mp hy with ⟨vb, _, hvb⟩
    rw [← hva, ← hvb]
    exact hab
  · rw [hmain]
    calc ((List.range p.get_num_slots).filterMap _).length
        ≤ (List.range p.get_num_slots).length := List.length_filterMap_le _ _
      _ = p.get_num_slots := List.length_range _
  · intro x hx
    rw [hmain] at hx
    rcases List.mem_filterMap.mp hx with ⟨i, _, hfx⟩
    rcases Option.map_eq_some'.mp hfx with ⟨v, hv, hvx⟩
    rw [← hvx]
    exact hv

/-! ## Effects of compact and shift_body_for_new_slot on the header -/

theorem get_free_space_eq (p : Page) :
    p.get_free_space = PAGE_SIZE - (8 + p.get_num_slots * 6) - usedSum p := rfl

theorem usedSum_of_no_slots (p : Page) (h : p.get_num_slots = 0) : usedSum p = 0 := by
  unfold usedSum Page.iter_used_slots
  rw [h]
  rfl

theorem readU16_copyWithin_out (d src len dst off : Nat)
    (hdisj : off + 2 ≤ dst ∨ dst + len ≤ off) :
    readU16 (copyWithin d src len dst) off = readU16 d off := by
  unfold copyWithin
  split
  · exact readU16_storeBytes_out _ _ _ _ _ hdisj
  · rfl

theorem sortedInsertByOff_perm (e : Nat × Nat × Nat) (l : List (Nat × Nat × Nat)) :
    (sortedInsertByOff e l).Perm (e :: l) := by
  induction l with
  | nil => exact List.Perm.refl _
  | cons a rest ih =>
    unfold sortedInsertByOff
    split
    · exact List.Perm.refl _
    · exact ((ih.cons a).trans (List.Perm.swap e a rest))

theorem sortByOff_perm (l : List (Nat × Nat × Nat)) : (sortByOff l).Perm l := by
  induction l with
  | nil => exact List.Perm.refl _
  | cons e rest ih =>
    exact (sortedInsertByOff_perm e (sortByOff rest)).trans (ih.cons e)

theorem sumLens_perm (l1 l2 : List (Nat × Nat × Nat)) (h : l1.Perm l2) :
    sumLens l1 = sumLens l2 :=
  List.Perm.sum_eq (h.map _)

theorem sumLens_compactUsed (p : Page) : sumLens (compactUsed p) = usedSum p := by
  unfold sumLens compactUsed usedSum Page.iter_used_slots
  rw [List.map_filterMap, List.map_filterMap]
  refine congrArg (fun f => (List.filterMap f (List.range p.get_num_slots)).sum) ?_
  funext i
  by_cases h : p.get_slot_in_use i = some 1
  · rw [if_pos h, if_pos h]
    rcases p.get_slot_offset_length i with _ | ol <;> rfl
  · rw [if_neg h, if_neg h]
    rfl

/-- The state (page, write position) of the compaction walk: the write
position advances by the total record length, num_slots is untouched. -/
theorem compact_fold_spec :
    ∀ (l : List (Nat × Nat × Nat)) (q : Page) (wp : Nat), 8 ≤ wp →
      ((l.foldl compactStep (q, wp)).2 = wp + sumLens l)
      ∧ ((l.foldl compactStep (q, wp)).1.get_num_slots = q.get_num_slots) := by
  intro l
  induction l with
  | nil =>
    intro q wp _
    exact ⟨by simp [sumLens], rfl⟩
  | cons e rest ih =>
    intro q wp hwp
    rw [List.foldl_cons]
    have hpair : compactStep (q, wp) e
        = ((compactStep (q, wp) e).1, wp + e.2.2) := rfl
    have hns : (compactStep (q, wp) e).1.get_num_slots = q.get_num_slots := by
      unfold compactStep
      dsimp only
      rw [num_slots_write_slot]
      split
      · unfold Page.get_num_slots
        exact readU16_copyWithin_out _ _ _ _ _ (Or.inl (by omega))
      · rfl
    rw [hpair]
    obtain ⟨h1, h2⟩ := ih (compactStep (q, wp) e).1 (wp + e.2.2) (by omega)
    refine ⟨?_, by rw [h2, hns]⟩
    rw [h1]
    unfold sumLens
    simp only [List.map_cons, List.sum_cons]
    omega

theorem compact_ns (p : Page) : (p.compact).get_num_slots = p.get_num_slots := by
  unfold Page.compact
  rw [num_slots_set_free_start]
  exact (compact_fold_spec (sortByOff (compactUsed p)) p (8 + p.get_num_slots * 6)
    (by omega)).2

theorem compact_storedfs (p : Page) :
    readU16 (p.compact).data 4 = min (8 + p.get_num_slots * 6 + usedSum p) PAGE_SIZE := by
  unfold Page.compact
  rw [storedfs_set_free_start]
  congr 1
  rw [(compact_fold_spec (sortByOff (compactUsed p)) p (8 + p.get_num_slots * 6)
    (by omega)).1]
  rw [sumLens_perm _ _ (sortByOff_perm (compactUsed p)), sumLens_compactUsed]

theorem bump_fold_ns :
    ∀ (l : List Nat) (q : Page), (l.foldl bumpStep q).get_num_slots = q.get_num_slots := by
  intro l
  induction l with
  | nil => intro q; rfl
  | cons i rest ih =>
    intro q
    rw [List.foldl_cons, ih]
    unfold bumpStep
    split
    · rcases q.get_slot_offset_length i with _ | ol
      · rfl
      · exact num_slots_write_slot _ _ _ _ _
    · rfl

theorem shift_ns (p : Page) :
    (p.shift_body_for_new_slot).get_num_slots = p.get_num_slots := by
  unfold Page.shift_body_for_new_slot
  dsimp only
  rw [num_slots_set_free_start, bump_fold_ns]
  have h2 : ∀ d : Nat, (Page.mk (storeBytes d (8 + p.get_num_slots * 6) 6 0)).get_num_slots
      = (Page.mk d).get_num_slots := by
    intro d
    unfold Page.get_num_slots
    exact readU16_storeBytes_out _ _ _ _ _ (Or.inl (by omega))
  rw [h2]
  split
  · unfold Page.get_num_slots
    exact readU16_copyWithin_out _ _ _ _ _ (Or.inl (by omega))
  · rfl

theorem shift_storedfs (p : Page) :
    readU16 (p.shift_body_for_new_slot).data 4
      = min (p.get_free_start + 6) PAGE_SIZE := by
  unfold Page.shift_body_for_new_slot
  dsimp only
  rw [storedfs_set_free_start]
  have h : min (p.get_free_start + 6) PAGE_SIZE ≤ PAGE_SIZE := Nat.min_le_right _ _
  omega

/-- Wherever add_value ends up inserting, the write fits in the page once
the free-space check has passed: the insert offset plus the record length
never exceeds PAGE_SIZE. -/
theorem addPrep_free_start_bound (p : Page) (b : Bytes)
    (hfit : b.len + (if p.find_lowest_free_slot_id ≥ p.get_num_slots then 6 else 0)
        ≤ p.get_free_space) :
    (addPrep p b).get_free_start + b.len ≤ PAGE_SIZE := by
  have hPS : PAGE_SIZE = 4096 := rfl
  have hfs0 := get_free_start_eq p
  have hfsp := get_free_space_eq p
  have hstored0 := readU16_lt p.data 4
  by_cases h1 : p.find_lowest_free_slot_id ≥ p.get_num_slots
  · rw [if_pos h1] at hfit
    have hns680 : p.get_num_slots ≤ 680 := by omega
    have hnsmod : (p.get_num_slots + 1) % 65536 = p.get_num_slots + 1 := by omega
    by_cases h2 : PAGE_SIZE - (p.get_free_start + 6) < b.len
    · have hA : addPrep p b
          = ((if p.get_num_slots > 0 then (p.compact).shift_body_for_new_slot
              else p.compact)).set_num_slots (p.get_num_slots + 1) := by
        unfold addPrep
        simp only [if_pos h1, if_pos h2]
      rw [hA, get_free_start_eq, num_slots_set_num_slots, storedfs_set_num_slots, hnsmod]
      by_cases h3 : p.get_num_slots > 0
      · rw [if_pos h3, shift_storedfs]
        have hfsc := get_free_start_eq p.compact
        rw [compact_storedfs, compact_ns] at hfsc
        rw [hfsc]
        omega
      · rw [if_neg h3, compact_storedfs]
        have hU0 : usedSum p = 0 := usedSum_of_no_slots p (by omega)
        omega
    · have hA : addPrep p b
          = ((if p.get_num_slots > 0 then p.shift_body_for_new_slot else p)).set_num_slots
              (p.get_num_slots + 1) := by
        unfold addPrep
        simp only [if_pos h1, if_neg h2]
      rw [hA, get_free_start_eq, num_slots_set_num_slots, storedfs_set_num_slots, hnsmod]
      by_cases h3 : p.get_num_slots > 0
      · rw [if_pos h3, shift_storedfs]
        omega
      · rw [if_neg h3]
        have hU0 : usedSum p = 0 := usedSum_of_no_slots p (by omega)
        omega
  · rw [if_neg h1] at hfit
    have hA : addPrep p b
        = (if PAGE_SIZE - (p.get_free_start + 0) < b.len then p.compact else p) := by
      unfold addPrep
      simp only [if_neg h1]
    rw [hA]
    by_cases h2 : PAGE_SIZE - (p.get_free_start + 0) < b.len
    · rw [if_pos h2, get_free_start_eq, compact_storedfs, compact_ns]
      omega
    · rw [if_neg h2]
      omega

/-- Once add_value has passed its free-space check, the insert succeeds:
the late bounds check after the mutation never fires. -/
theorem add_value_fit_succeeds (p : Page) (b : Bytes)
    (hlen : b.len ≤ PAGE_SIZE)
    (hfit : b.len + (if p.find_lowest_free_slot_id ≥ p.get_num_slots then 6 else 0)
        ≤ p.get_free_space) :
    (p.add_value b).1 = some p.find_lowest_free_slot_id := by
  have hbound := addPrep_free_start_bound p b hfit
  rw [add_value_eq, if_neg (by omega), if_neg (by omega), if_neg (by omega)]

/-- C2: if add_value returns the no-fit sentinel None, the page's byte
buffer after the call is identical to the buffer before the call; in
particular no mutation (hence no compaction) is ever visible after a call
that returns None. -/
theorem add_value_none_leaves_page_unchanged (p : Page) (b : Bytes)
    (h : (p.add_value b).1 = none) :
    (p.add_value b).2 = p ∧ (p.add_value b).2.to_bytes = p.to_bytes := by
  by_cases hlen : b.len ≤ PAGE_SIZE
  · by_cases hfit : b.len + (if p.find_lowest_free_slot_id ≥ p.get_num_slots then 6 else 0)
        ≤ p.get_free_space
    · rw [add_value_fit_succeeds p b hlen hfit] at h
      exact absurd h (by simp)
    · have he : p.add_value b = (none, p) := by
        rw [add_value_eq, if_neg (by omega), if_pos (by omega)]
      rw [he]
      exact ⟨rfl, rfl⟩
  · have he : p.add_value b = (none, p) := by
      rw [add_value_eq, if_pos (by omega)]
    rw [he]
    exact ⟨rfl, rfl⟩

/-- Witness for add_value_none_leaves_page_unchanged: an oversize insert on
a fresh page returns None and leaves the page unchanged. -/
theorem add_value_none_leaves_page_unchanged_witness :
    ((Page.new 0).add_value (repBytes 4097 1)).1 = none
    ∧ ((Page.new 0).add_value (repBytes 4097 1)).2 = Page.new 0 := by
  have h : ((Page.new 0).add_value (repBytes 4097 1)).1 = none := by decide
  exact ⟨h, (add_value_none_leaves_page_unchanged (Page.new 0) (repBytes 4097 1) h).1⟩

/-- C1 (failing input): the page pShift4 is reached from Page::new by five
successful public operations, yet its live slot 0 stores the byte range
[3526, 4097), which leaves [8 + num_slots*6, PAGE_SIZE): the body-shift
truncation dropped the record's last byte and the range invariant P5 is
violated; the live record has become unreadable. -/
theorem invariant_violation_at_pShift4 :
    ((Page.new 0).add_value (repBytes 3000 1)).1 = some 0
    ∧ (pShift0.add_value (repBytes 500 2)).1 = some 1
    ∧ (pShift1.delete_value 0).1 = some ()
    ∧ (pShift2.add_value (repBytes 571 7)).1 = some 0
    ∧ (pShift3.add_value ⟨0, 0⟩).1 = some 2
    ∧ pShift4.get_slot_in_use 0 = some 1
    ∧ pShift4.get_slot_offset_length 0 = some (3526, 571)
    ∧ 3526 + 571 > PAGE_SIZE
    ∧ pShift4.get_value 0 = none := by decide

/-- C10 (counterexample): on the reachable page pShift3 a zero-length
insert passes the free-space check, but during the body shift the
truncation guard truncates: body_len is 4071 while only 4070 bytes are
moved, and the surviving live record of slot 0 ends up pointing past
PAGE_SIZE. -/
theorem shift_truncation_counterexample :
    pShift3.get_num_slots = 2
    ∧ pShift3.find_lowest_free_slot_id = 2
    ∧ (0 : Nat) + 6 ≤ pShift3.get_free_space
    ∧ pShift3.get_free_start - (8 + pShift3.get_num_slots * 6) = 4071
    ∧ min (pShift3.get_free_start - (8 + pShift3.get_num_slots * 6))
        (PAGE_SIZE - (8 + pShift3.get_num_slots * 6 + 6)) = 4070
    ∧ (pShift3.add_value ⟨0, 0⟩).1 = some 2
    ∧ pShift4.get_slot_offset_length 0 = some (3526, 571)
    ∧ 3526 + 571 > PAGE_SIZE := by decide

/-- C10 (amended): once add_value passes its free-space check the insert
always succeeds — the late bounds check never fires, on any page; however
the truncation guard of the body shift is not always inactive: on the
reachable page pShift3 it truncates (body_len 4071, shift capacity 4070). -/
theorem fit_implies_success_and_shift_can_truncate :
    (∀ (p : Page) (b : Bytes), b.len ≤ PAGE_SIZE →
      b.len + (if p.find_lowest_free_slot_id ≥ p.get_num_slots then 6 else 0)
          ≤ p.get_free_space →
      (p.add_value b).1 = some p.find_lowest_free_slot_id)
    ∧ (pShift3.get_free_start - (8 + pShift3.get_num_slots * 6) = 4071
      ∧ PAGE_SIZE - (8 + pShift3.get_num_slots * 6 + 6) = 4070) :=
  ⟨fun p b h1 h2 => add_value_fit_succeeds p b h1 h2, by decide, by decide⟩

/-- Witness for fit_implies_success_and_shift_can_truncate: a 10-byte
insert into a fresh page passes the fit check and succeeds with slot id 0. -/
theorem fit_implies_success_witness :
    (repBytes 10 1).len ≤ PAGE_SIZE
    ∧ (repBytes 10 1).len +
        (if (Page.new 7).find_lowest_free_slot_id ≥ (Page.new 7).get_num_slots then 6 else 0)
          ≤ (Page.new 7).get_free_space
    ∧ ((Page.new 7).add_value (repBytes 10 1)).1
        = some (Page.new 7).find_lowest_free_slot_id := by
  refine ⟨by decide, by decide, ?_⟩
  exact fit_implies_success_and_shift_can_truncate.1 (Page.new 7) (repBytes 10 1)
    (by decide) (by decide)

/-- Success-branch extraction for add_value: the returned slot id, the
passed checks, and the exact final page. -/
theorem add_value_success_eq (p : Page) (b : Bytes) (s : Nat) (q : Page)
    (h : p.add_value b = (some s, q)) :
    s = p.find_lowest_free_slot_id
    ∧ b.len ≤ PAGE_SIZE
    ∧ b.len + (if p.find_lowest_free_slot_id ≥ p.get_num_slots then 6 else 0)
        ≤ p.get_free_space
    ∧ (addPrep p b).get_free_start + b.len ≤ PAGE_SIZE
    ∧ q = ((Page.mk (storeBytes (addPrep p b).data ((addPrep p b).get_free_start) b.len
          b.val)).write_slot p.find_lowest_free_slot_id ((addPrep p b).get_free_start)
          b.len 1).set_free_start ((addPrep p b).get_free_start + b.len) := by
  by_cases h1 : b.len > PAGE_SIZE
  · rw [add_value_eq, if_pos h1] at h
    rw [Prod.ext_iff] at h
    exact absurd h.1 (by simp)
  · by_cases h2 : p.get_free_space <
        b.len + (if p.find_lowest_free_slot_id ≥ p.get_num_slots then 6 else 0)
    · rw [add_value_eq, if_neg h1, if_pos h2] at h
      rw [Prod.ext_iff] at h
      exact absurd h.1 (by simp)
    · by_cases h3 : (addPrep p b).get_free_start + b.len > PAGE_SIZE
      · rw [add_value_eq, if_neg h1, if_neg h2, if_pos h3] at h
        rw [Prod.ext_iff] at h
        exact absurd h.1 (by simp)
      · rw [add_value_eq, if_neg h1, if_neg h2, if_neg h3] at h
        rw [Prod.ext_iff] at h
        obtain ⟨hs, hq⟩ := h
        simp only [Option.some.injEq] at hs
        exact ⟨hs.symm, by omega, by omega, by omega, hq.symm⟩

theorem get_free_start_ge_body (p : Page) (h : 8 + p.get_num_slots * 6 ≤ PAGE_SIZE) :
    8 + p.get_num_slots * 6 ≤ p.get_free_start := by
  rw [get_free_start_eq]
  omega

/-- num_slots after the preparatory phase of add_value, assuming the
free-space check passed. -/
theorem addPrep_get_num_slots (p : Page) (b : Bytes)
    (hfit : b.len + (if p.find_lowest_free_slot_id ≥ p.get_num_slots then 6 else 0)
        ≤ p.get_free_space) :
    (addPrep p b).get_num_slots
      = (if p.find_lowest_free_slot_id ≥ p.get_num_slots then p.get_num_slots + 1
         else p.get_num_slots) := by
  have hPS : PAGE_SIZE = 4096 := rfl
  have hfsp := get_free_space_eq p
  by_cases h1 : p.find_lowest_free_slot_id ≥ p.get_num_slots
  · rw [if_pos h1] at hfit ⊢
    have hns680 : p.get_num_slots ≤ 680 := by omega
    have hnsmod : (p.get_num_slots + 1) % 65536 = p.get_num_slots + 1 := by omega
    unfold addPrep
    simp only [if_pos h1]
    rw [num_slots_set_num_slots, hnsmod]
  · rw [if_neg h1]
    unfold addPrep
    simp only [if_neg h1]
    split
    · exact compact_ns p
    · rfl

/-- The header of the post-insert page still fits in the page, assuming
the pre-call header does and the free-space check passed. -/
theorem addPrep_header_le (p : Page) (b : Bytes)
    (hh : 8 + p.get_num_slots * 6 ≤ PAGE_SIZE)
    (hfit : b.len + (if p.find_lowest_free_slot_id ≥ p.get_num_slots then 6 else 0)
        ≤ p.get_free_space) :
    8 + (addPrep p b).get_num_slots * 6 ≤ PAGE_SIZE := by
  rw [addPrep_get_num_slots p b hfit]
  have hPS : PAGE_SIZE = 4096 := rfl
  have hfsp := get_free_space_eq p
  by_cases h1 : p.find_lowest_free_slot_id ≥ p.get_num_slots
  · rw [if_pos h1] at hfit ⊢
    omega
  · rw [if_neg h1]
    omega

theorem get_free_start_ge_8 (p : Page) : 8 ≤ p.get_free_start := by
  rw [get_free_start_eq]
  have hPS : PAGE_SIZE = 4096 := rfl
  omega

/-- The page produced by a successful insert: num_slots, the written slot
entry, and the written payload bytes. -/
theorem add_value_written_state (p : Page) (b : Bytes) (s : Nat) (q : Page)
    (hb : b.Wf) (hh : p.get_header_size ≤ PAGE_SIZE)
    (h : p.add_value b = (some s, q)) :
    q.get_num_slots = (addPrep p b).get_num_slots
    ∧ s < q.get_num_slots
    ∧ 8 + q.get_num_slots * 6 ≤ PAGE_SIZE
    ∧ readU16 q.data (slot_meta_offset s + 0) = (addPrep p b).get_free_start
    ∧ readU16 q.data (slot_meta_offset s + 2) = b.len
    ∧ byteAt q.data (slot_meta_offset s + 4) = 1
    ∧ (addPrep p b).get_free_start + b.len ≤ PAGE_SIZE
    ∧ 8 + q.get_num_slots * 6 ≤ (addPrep p b).get_free_start
    ∧ rangeVal q.data ((addPrep p b).get_free_start) b.len = b.val := by
  obtain ⟨hs, hlen, hfit, hlate, hq⟩ := add_value_success_eq p b s q h
  subst hs
  have hPS : PAGE_SIZE = 4096 := rfl
  have hhd : 8 + p.get_num_slots * 6 ≤ PAGE_SIZE := hh
  have hns2 := addPrep_get_num_slots p b hfit
  have hh2 : 8 + (addPrep p b).get_num_slots * 6 ≤ PAGE_SIZE := addPrep_header_le p b hhd hfit
  have hiole : (addPrep p b).get_free_start ≤ PAGE_SIZE := get_free_start_le _
  have hiobody : 8 + (addPrep p b).get_num_slots * 6 ≤ (addPrep p b).get_free_start :=
    get_free_start_ge_body _ hh2
  have hio8 : 8 ≤ (addPrep p b).get_free_start := get_free_start_ge_8 _
  have hFle : p.find_lowest_free_slot_id ≤ p.get_num_slots := (find_lowest_spec p).2.2
  have hsns2 : p.find_lowest_free_slot_id < (addPrep p b).get_num_slots := by
    rw [hns2]
    by_cases hc : p.find_lowest_free_slot_id ≥ p.get_num_slots
    · rw [if_pos hc]; omega
    · rw [if_neg hc]; omega
  have hsfit : slot_meta_offset p.find_lowest_free_slot_id + 5 ≤ PAGE_SIZE := by
    rw [slot_meta_offset_eq]
    omega
  -- the page q as the three writes
  have hnsq : q.get_num_slots = (addPrep p b).get_num_slots := by
    rw [hq, num_slots_set_free_start, num_slots_write_slot]
    unfold Page.get_num_slots
    exact readU16_storeBytes_out _ _ _ _ _ (Or.inl (by omega))
  have hentry1 := slot_entry_set_free_start
    ((Page.mk (storeBytes (addPrep p b).data ((addPrep p b).get_free_start) b.len
        b.val)).write_slot p.find_lowest_free_slot_id ((addPrep p b).get_free_start)
        b.len 1) ((addPrep p b).get_free_start + b.len) p.find_lowest_free_slot_id
  have hentry2 := slot_entry_write_slot_self
    (Page.mk (storeBytes (addPrep p b).data ((addPrep p b).get_free_start) b.len b.val))
    p.find_lowest_free_slot_id ((addPrep p b).get_free_start) b.len 1 hsfit
  refine ⟨hnsq, by omega, by omega, ?_, ?_, ?_, by omega, by omega, ?_⟩
  · rw [hq, hentry1.1, hentry2.1]
    omega
  · rw [hq, hentry1.2.1, hentry2.2.1]
    omega
  · rw [hq, hentry1.2.2, hentry2.2.2]
  · rw [hq]
    rw [rangeVal_set_free_start _ _ _ _ (by omega)]
    rw [rangeVal_write_slot_out _ _ _ _ _ _ _ (Or.inr (by rw [slot_meta_offset_eq]; omega))]
    dsimp only
    rw [rangeVal_storeBytes_self _ _ _ _ (by omega)]
    exact Nat.mod_eq_of_lt hb

/-- A successful insert is immediately readable back, byte for byte. -/
theorem insert_then_get (p : Page) (b : Bytes) (s : Nat) (q : Page)
    (hb : b.Wf) (hh : p.get_header_size ≤ PAGE_SIZE)
    (h : p.add_value b = (some s, q)) :
    q.get_value s = some b := by
  obtain ⟨hns, hslt, hh2, hoff, hlen2, hbyte, hfit2, hbody, hrange⟩ :=
    add_value_written_state p b s q hb hh h
  have h1 : q.get_slot_in_use s = some 1 := by
    unfold Page.get_slot_in_use
    rw [if_neg (by omega), hbyte]
  have h2 : q.get_slot_offset_length s = some ((addPrep p b).get_free_start, b.len) := by
    unfold Page.get_slot_offset_length
    rw [if_neg (by omega), hoff, hlen2]
  unfold Page.get_value
  rw [h1, h2]
  dsimp only
  rw [if_neg (by simp), if_neg (by omega)]
  unfold extract
  rw [hrange]

/-- Deleting other slots never touches the entry of slot s nor the bytes of
a record stored at or after the slot directory. -/
theorem deletes_preserve_record (N off len : Nat) (s : Nat)
    (hbody : 8 + N * 6 ≤ off) :
    ∀ (ts : List Nat) (q : Page),
      (∀ t ∈ ts, t ≠ s) →
      q.get_num_slots = N →
      ((applyDeletes q ts).get_num_slots = N
       ∧ readU16 (applyDeletes q ts).data (slot_meta_offset s + 0)
           = readU16 q.data (slot_meta_offset s + 0)
       ∧ readU16 (applyDeletes q ts).data (slot_meta_offset s + 2)
           = readU16 q.data (slot_meta_offset s + 2)
       ∧ byteAt (applyDeletes q ts).data (slot_meta_offset s + 4)
           = byteAt q.data (slot_meta_offset s + 4)
       ∧ rangeVal (applyDeletes q ts).data off len = rangeVal q.data off len) := by
  intro ts
  induction ts with
  | nil =>
    intro q _ hN
    exact ⟨hN, rfl, rfl, rfl, rfl⟩
  | cons t rest ih =>
    intro q hts hN
    have hstep : applyDeletes q (t :: rest) = applyDeletes (q.delete_value t).2 rest := rfl
    have htne : t ≠ s := hts t (List.mem_cons_self t rest)
    rcases delete_value_cases q t with ⟨htN, _, heq⟩ | ⟨_, heq⟩
    · -- successful delete of t: one in_use byte changes
      have hq2 : (q.delete_value t).2 = q.set_slot_in_use t 0 := by rw [heq]
      have hN2 : (q.set_slot_in_use t 0).get_num_slots = N := by
        rw [num_slots_set_slot_in_use, hN]
      obtain ⟨i1, i2, i3, i4, i5⟩ := ih (q.set_slot_in_use t 0)
        (fun u hu => hts u (List.mem_cons_of_mem t hu)) hN2
      have hent := slot_entry_set_slot_in_use_other q t 0 s (by omega)
      have hray : rangeVal (q.set_slot_in_use t 0).data off len = rangeVal q.data off len := by
        apply rangeVal_set_slot_in_use_out
        right
        rw [slot_meta_offset_eq]
        rw [hN] at htN
        omega
      rw [hstep, hq2]
      exact ⟨i1, by rw [i2, hent.1], by rw [i3, hent.2.1], by rw [i4, hent.2.2],
        by rw [i5, hray]⟩
    · rw [hstep, heq]
      exact ih q (fun u hu => hts u (List.mem_cons_of_mem t hu)) hN

/-- C4 (amended): a successful add_value(b) = s reads back byte-for-byte,
and the read-back stays equal under any subsequent sequence of delete_value
calls on other slot ids.  (It does not in general survive subsequent
add_value calls on other slots: see the counterexample.) -/
theorem insert_read_round_trip (p : Page) (b : Bytes) (s : Nat) (q : Page)
    (hb : b.Wf) (hh : p.get_header_size ≤ PAGE_SIZE)
    (h : p.add_value b = (some s, q)) :
    q.get_value s = some b
    ∧ ∀ ts : List Nat, (∀ t ∈ ts, t ≠ s) → (applyDeletes q ts).get_value s = some b := by
  obtain ⟨hns, hslt, hh2, hoff, hlen2, hbyte, hfit2, hbody, hrange⟩ :=
    add_value_written_state p b s q hb hh h
  refine ⟨insert_then_get p b s q hb hh h, ?_⟩
  intro ts hts
  obtain ⟨d1, d2, d3, d4, d5⟩ := deletes_preserve_record q.get_num_slots
    ((addPrep p b).get_free_start) b.len s (by omega) ts q hts rfl
  have h1 : (applyDeletes q ts).get_slot_in_use s = some 1 := by
    unfold Page.get_slot_in_use
    rw [if_neg (by omega), d4, hbyte]
  have h2 : (applyDeletes q ts).get_slot_offset_length s
      = some ((addPrep p b).get_free_start, b.len) := by
    unfold Page.get_slot_offset_length
    rw [if_neg (by omega), d2, d3, hoff, hlen2]
  unfold Page.get_value
  rw [h1, h2]
  dsimp only
  rw [if_neg (by simp), if_neg (by omega)]
  unfold extract
  rw [d5, hrange]

/-- C4 (counterexample): on the reachable page pShift2, add_value writes
571 bytes into slot 0 and reads back correctly, but a later add_value that
operates on another slot id (2) destroys the read-back of slot 0. -/
theorem later_insert_corrupts_readback_counterexample :
    pShift2.add_value (repBytes 571 7) = (some 0, pShift3)
    ∧ pShift3.get_value 0 = some (repBytes 571 7)
    ∧ (pShift3.add_value ⟨0, 0⟩).1 = some 2
    ∧ (2 : Nat) ≠ 0
    ∧ (pShift3.add_value ⟨0, 0⟩).2.get_value 0 = none
    ∧ some (repBytes 571 7) ≠ (none : Option Bytes) := by decide

/-- Witness for insert_read_round_trip: on a page with one record, a second
insert goes to slot 1, reads back, and still reads back after deleting
slot 0. -/
theorem insert_read_round_trip_witness :
    (repBytes 7 5).Wf
    ∧ (((Page.new 1).add_value (repBytes 10 3)).2).get_header_size ≤ PAGE_SIZE
    ∧ (((Page.new 1).add_value (repBytes 10 3)).2).add_value (repBytes 7 5)
        = (some 1, ((((Page.new 1).add_value (repBytes 10 3)).2).add_value (repBytes 7 5)).2)
    ∧ ((((Page.new 1).add_value (repBytes 10 3)).2).add_value (repBytes 7 5)).2.get_value 1
        = some (repBytes 7 5)
    ∧ (applyDeletes ((((Page.new 1).add_value (repBytes 10 3)).2).add_value
          (repBytes 7 5)).2 [0]).get_value 1 = some (repBytes 7 5) := by
  have hb : (repBytes 7 5).Wf := by decide
  have hh : (((Page.new 1).add_value (repBytes 10 3)).2).get_header_size ≤ PAGE_SIZE := by
    decide
  have h : (((Page.new 1).add_value (repBytes 10 3)).2).add_value (repBytes 7 5)
      = (some 1, ((((Page.new 1).add_value (repBytes 10 3)).2).add_value
          (repBytes 7 5)).2) := by decide
  have thm := insert_read_round_trip _ _ 1 _ hb hh h
  exact ⟨hb, hh, h, thm.1, thm.2 [0] (by simp)⟩

/-- A store of the bytes already present is the identity. -/
theorem storeBytes_same (d pos n w : Nat) (h : pos + n ≤ PAGE_SIZE)
    (hw : rangeVal d pos n = w % 256 ^ n) :
    storeBytes d pos n w = d := by
  have e1 : d / 256 ^ pos = w % 256 ^ n + d / 256 ^ (pos + n) * 256 ^ n := by
    rw [← hw]
    unfold rangeVal
    rw [pow_add, ← Nat.div_div_eq_div_mul]
    exact (Nat.mod_add_div' (d / 256 ^ pos) (256 ^ n)).symm
  have hd : d = d % 256 ^ pos + (w % 256 ^ n + d / 256 ^ (pos + n) * 256 ^ n) * 256 ^ pos := by
    conv_lhs => rw [← Nat.mod_add_div' d (256 ^ pos), e1]
  rw [storeBytes_eq _ _ _ _ h, ← hd]

/-- Rewriting a slot entry with the values it already holds is the
identity. -/
theorem write_slot_same (p : Page) (s off len u : Nat)
    (hfit : slot_meta_offset s + 6 ≤ PAGE_SIZE)
    (hoff : readU16 p.data (slot_meta_offset s) = off % 65536)
    (hlen : readU16 p.data (slot_meta_offset s + 2) = len % 65536)
    (hu : byteAt p.data (slot_meta_offset s + 4) = u % 256) :
    p.write_slot s off len u = p := by
  unfold Page.write_slot writeU16
  dsimp only
  rw [readU16_eq_rangeVal] at hoff hlen
  rw [byteAt_eq_rangeVal] at hu
  rw [storeBytes_same p.data (slot_meta_offset s) 2 off (by omega) (by rw [hoff]; norm_num)]
  rw [storeBytes_same p.data (slot_meta_offset s + 2) 2 len (by omega) (by rw [hlen]; norm_num)]
  rw [storeBytes_same p.data (slot_meta_offset s + 4) 1 u (by omega) (by rw [hu]; norm_num)]

/-- The compaction walk is the identity when every record already sits at
its write position. -/
theorem compact_fold_id (p : Page) :
    ∀ (l : List (Nat × Nat × Nat)) (wp : Nat),
      8 ≤ wp →
      wp + sumLens l ≤ PAGE_SIZE →
      (∀ e ∈ l, e.1 < p.get_num_slots
        ∧ byteAt p.data (slot_meta_offset e.1 + 4) = 1
        ∧ readU16 p.data (slot_meta_offset e.1 + 0) = e.2.1
        ∧ readU16 p.data (slot_meta_offset e.1 + 2) = e.2.2
        ∧ slot_meta_offset e.1 + 6 ≤ PAGE_SIZE) →
      (∀ k, k < l.length → (l.getD k (0, 0, 0)).2.1 = wp + sumLens (l.take k)) →
      (l.foldl compactStep (p, wp)).1 = p := by
  intro l
  induction l with
  | nil =>
    intro wp _ _ _ _
    rfl
  | cons e rest ih =>
    intro wp hwp8 hbound hmem hpos
    have hsum : sumLens (e :: rest) = e.2.2 + sumLens rest := by
      unfold sumLens
      simp
    have he0 : e.2.1 = wp := by
      have h0 := hpos 0 (by simp)
      simpa [sumLens] using h0
    obtain ⟨hsid, hbyte, hoff, hlenE, hfitE⟩ := hmem e (List.mem_cons_self e rest)
    rw [List.foldl_cons]
    have hwple : wp ≤ 65535 := by
      have hPS : PAGE_SIZE = 4096 := rfl
      omega
    have hstep : compactStep (p, wp) e = (p, wp + e.2.2) := by
      unfold compactStep
      dsimp only
      rw [if_neg (by omega)]
      rw [write_slot_same p e.1 wp e.2.2 1 hfitE
        (by rw [Nat.add_zero] at hoff; rw [hoff, he0, Nat.mod_eq_of_lt (by omega)])
        (by rw [hlenE]; have := readU16_lt p.data (slot_meta_offset e.1 + 2); omega)
        (by rw [hbyte])]
    rw [hstep]
    refine ih (wp + e.2.2) (by omega) (by omega) ?_ ?_
    · intro x hx
      exact hmem x (List.mem_cons_of_mem e hx)
    · intro k hk
      have h1 := hpos (k + 1) (by simpa using Nat.succ_lt_succ hk)
      have e1 : (e :: rest).getD (k + 1) (0, 0, 0) = rest.getD k (0, 0, 0) := rfl
      have e2 : (e :: rest).take (k + 1) = e :: rest.take k := rfl
      rw [e1, e2] at h1
      have e3 : sumLens (e :: rest.take k) = e.2.2 + sumLens (rest.take k) := by
        unfold sumLens
        simp
      rw [h1, e3]
      omega

/-- Every element of the compaction work list is a live slot of the page
carrying exactly its stored entry values. -/
theorem compactUsed_mem (p : Page) (e : Nat × Nat × Nat) (he : e ∈ compactUsed p) :
    e.1 < p.get_num_slots
    ∧ byteAt p.data (slot_meta_offset e.1 + 4) = 1
    ∧ readU16 p.data (slot_meta_offset e.1 + 0) = e.2.1
    ∧ readU16 p.data (slot_meta_offset e.1 + 2) = e.2.2 := by
  unfold compactUsed at he
  rcases List.mem_filterMap.mp he with ⟨i, _, hfi⟩
  by_cases hu : p.get_slot_in_use i = some 1
  · rw [if_pos hu] at hfi
    rcases hol : p.get_slot_offset_length i with _ | ol
    · rw [hol] at hfi
      simp at hfi
    · rw [hol] at hfi
      simp only [Option.map_some', Option.some.injEq] at hfi
      have hirange : ¬ i ≥ p.get_num_slots := by
        intro hcon
        unfold Page.get_slot_offset_length at hol
        rw [if_pos hcon] at hol
        cases hol
      unfold Page.get_slot_offset_length at hol
      rw [if_neg hirange] at hol
      simp only [Option.some.injEq] at hol
      unfold Page.get_slot_in_use at hu
      rw [if_neg hirange] at hu
      simp only [Option.some.injEq] at hu
      rw [← hfi]
      dsimp only
      refine ⟨by omega, hu, ?_, ?_⟩
      · rw [← hol]
      · rw [← hol]
  · rw [if_neg hu] at hfi
    cases hfi

/-- C6 (amended): on a page whose live payloads are already packed
contiguously from body_start in the order compaction walks them, with
free_start just past the last payload, compact leaves the byte buffer
identical. -/
theorem compact_identity_on_packed (p : Page) (hp : PackedAt p) : p.compact = p := by
  obtain ⟨h1, h2, h3⟩ := hp
  have hPS : PAGE_SIZE = 4096 := rfl
  unfold Page.compact
  dsimp only
  have hfold := compact_fold_id p (sortByOff (compactUsed p)) (8 + p.get_num_slots * 6)
    (by omega) (by omega)
    (fun e he => by
      have hmem := compactUsed_mem p e ((sortByOff_perm (compactUsed p)).mem_iff.mp he)
      exact ⟨hmem.1, hmem.2.1, hmem.2.2.1, hmem.2.2.2, by
        rw [slot_meta_offset_eq]
        have : e.1 < p.get_num_slots := hmem.1
        omega⟩)
    h1
  have hwp := (compact_fold_spec (sortByOff (compactUsed p)) p (8 + p.get_num_slots * 6)
    (by omega)).1
  rw [hfold, hwp]
  unfold Page.set_free_start writeU16
  have hmin : min (8 + p.get_num_slots * 6 + sumLens (sortByOff (compactUsed p)))
      PAGE_SIZE = 8 + p.get_num_slots * 6 + sumLens (sortByOff (compactUsed p)) := by
    omega
  rw [hmin]
  have hcond : rangeVal p.data 4 2
      = (8 + p.get_num_slots * 6 + sumLens (sortByOff (compactUsed p))) % 256 ^ 2 := by
    have h2562 : (256 : Nat) ^ 2 = 65536 := by norm_num
    rw [← readU16_eq_rangeVal, h2, h2562, Nat.mod_eq_of_lt (by omega)]
  rw [storeBytes_same p.data 4 2
    (8 + p.get_num_slots * 6 + sumLens (sortByOff (compactUsed p))) (by omega) hcond]

/-- C6 witness: a page built by two successful inserts is packed, and the
amended theorem applies: compact is the identity on it. -/
theorem compact_identity_on_packed_witness :
    PackedAt (((Page.new 0).add_value (repBytes 10 1)).2.add_value (repBytes 5 2)).2
    ∧ ((((Page.new 0).add_value (repBytes 10 1)).2.add_value (repBytes 5 2)).2).compact
      = (((Page.new 0).add_value (repBytes 10 1)).2.add_value (repBytes 5 2)).2 :=
  ⟨by decide, compact_identity_on_packed
    (((Page.new 0).add_value (repBytes 10 1)).2.add_value (repBytes 5 2)).2 (by decide)⟩

/-- C6 counterexample: compaction is not idempotent in general. On the
reachable page pTie5 (six successful operations from a fresh page; a
zero-length record ties its stored offset with a live record after a
delete and a reuse-insert) the stable sort keys change between the first
and the second compaction, so the second compaction moves bytes again:
byte 14 (slot 1's stored offset low byte) is 26 after one compact but 56
after two, hence compact (compact pTie5) differs from compact pTie5. -/
theorem compact_not_idempotent :
    ((Page.new 0).add_value (repBytes 30 3)).1 = some 0
    ∧ (pTie0.add_value ⟨0, 0⟩).1 = some 1
    ∧ (pTie1.add_value (repBytes 40 4)).1 = some 2
    ∧ (pTie2.delete_value 0).1 = some ()
    ∧ (pTie3.add_value (repBytes 30 5)).1 = some 0
    ∧ (pTie4.delete_value 2).1 = some ()
    ∧ byteAt pTie5.compact.data 14 = 26
    ∧ byteAt pTie5.compact.compact.data 14 = 56
    ∧ pTie5.compact.compact ≠ pTie5.compact := by
  refine ⟨by decide, by decide, by decide, by decide, by decide, by decide,
    by decide, by decide, ?_⟩
  intro hcon
  have hb := congrArg (fun q : Page => byteAt q.data 14) hcon
  dsimp only at hb
  rw [(by decide : byteAt pTie5.compact.compact.data 14 = 56),
      (by decide : byteAt pTie5.compact.data 14 = 26)] at hb
  exact absurd hb (by decide)

/-- shift_body_for_new_slot, staged: copy, zero the 6 entry bytes, bump
the live offsets, then advance free_start by 6 (clamped). -/
theorem shift_eq (p : Page) :
    p.shift_body_for_new_slot
      = ((List.range p.get_num_slots).foldl bumpStep (shiftStage2 p)).set_free_start
          (min (p.get_free_start + 6) PAGE_SIZE) := rfl

/-- A byte inside the destination of a bounded copy is read from the
source position. -/
theorem byteAt_copyWithin_in (d src len dst t : Nat) (hsrc : src + len ≤ PAGE_SIZE)
    (hdst : dst + len ≤ PAGE_SIZE) (ht : t < len) :
    byteAt (copyWithin d src len dst) (dst + t) = byteAt d (src + t) := by
  unfold copyWithin
  rw [if_pos hsrc]
  rw [byteAt_storeBytes_mid _ _ _ _ _ hdst (by omega) (by omega)]
  unfold extract
  dsimp only
  unfold rangeVal byteAt
  rw [Nat.add_sub_cancel_left]
  have h1 : (256 : Nat) = 256 ^ 1 := by norm_num
  calc d / 256 ^ src % 256 ^ len / 256 ^ t % 256
      = d / 256 ^ src % 256 ^ len / 256 ^ t % 256 ^ 1 := by rw [← h1]
    _ = d / 256 ^ src / 256 ^ t % 256 ^ 1 := mod_pow_div_mod _ _ _ _ (by omega)
    _ = d / 256 ^ (src + t) % 256 := by rw [← h1, Nat.div_div_eq_div_mul, ← pow_add]

/-- Bytes outside the destination of a copy are untouched. -/
theorem byteAt_copyWithin_out (d src len dst j : Nat)
    (hdisj : j + 1 ≤ dst ∨ dst + len ≤ j) :
    byteAt (copyWithin d src len dst) j = byteAt d j := by
  unfold copyWithin
  split
  · exact byteAt_storeBytes_out _ _ _ _ _ hdisj
  · rfl

/-- Bytes above position 5 are untouched by set_free_start. -/
theorem byteAt_set_free_start_out (p : Page) (x j : Nat) (h : 6 ≤ j) :
    byteAt (p.set_free_start x).data j = byteAt p.data j := by
  rw [byteAt_eq_rangeVal, byteAt_eq_rangeVal]
  exact rangeVal_set_free_start p x j 1 h

theorem bumpStep_ns (q : Page) (i : Nat) :
    (bumpStep q i).get_num_slots = q.get_num_slots := bump_fold_ns [i] q

/-- A bump step only writes its own slot entry. -/
theorem bumpStep_entry_other (q : Page) (i t : Nat) (h : t ≠ i) :
    readU16 (bumpStep q i).data (slot_meta_offset t + 0)
        = readU16 q.data (slot_meta_offset t + 0)
    ∧ readU16 (bumpStep q i).data (slot_meta_offset t + 2)
        = readU16 q.data (slot_meta_offset t + 2)
    ∧ byteAt (bumpStep q i).data (slot_meta_offset t + 4)
        = byteAt q.data (slot_meta_offset t + 4) := by
  unfold bumpStep
  split
  · split
    · exact slot_entry_write_slot_other q i _ _ 1 t h
    · exact ⟨rfl, rfl, rfl⟩
  · exact ⟨rfl, rfl, rfl⟩

/-- A bump step leaves bytes outside its slot entry alone. -/
theorem bumpStep_byteAt_out (q : Page) (i j : Nat)
    (hdisj : j + 1 ≤ slot_meta_offset i ∨ slot_meta_offset i + 5 ≤ j) :
    byteAt (bumpStep q i).data j = byteAt q.data j := by
  unfold bumpStep
  split
  · split
    · exact byteAt_write_slot_out q i _ _ 1 j hdisj
    · rfl
  · rfl

/-- The bump walk leaves bytes outside all processed entries alone. -/
theorem bump_fold_byteAt_out :
    ∀ (l : List Nat) (q : Page) (j : Nat),
      (∀ a ∈ l, j + 1 ≤ slot_meta_offset a ∨ slot_meta_offset a + 5 ≤ j) →
      byteAt ((l.foldl bumpStep q)).data j = byteAt q.data j := by
  intro l
  induction l with
  | nil =>
    intro q j _
    rfl
  | cons a rest ih =>
    intro q j hd
    rw [List.foldl_cons]
    rw [ih (bumpStep q a) j (fun x hx => hd x (List.mem_cons_of_mem a hx))]
    exact bumpStep_byteAt_out q a j (hd a (List.mem_cons_self a rest))

/-- The bump walk leaves a slot entry not in its work list alone. -/
theorem bump_fold_entry_out :
    ∀ (l : List Nat) (q : Page) (t : Nat), t ∉ l →
      readU16 ((l.foldl bumpStep q)).data (slot_meta_offset t + 0)
          = readU16 q.data (slot_meta_offset t + 0)
      ∧ readU16 ((l.foldl bumpStep q)).data (slot_meta_offset t + 2)
          = readU16 q.data (slot_meta_offset t + 2)
      ∧ byteAt ((l.foldl bumpStep q)).data (slot_meta_offset t + 4)
          = byteAt q.data (slot_meta_offset t + 4) := by
  intro l
  induction l with
  | nil =>
    intro q t _
    exact ⟨rfl, rfl, rfl⟩
  | cons a rest ih =>
    intro q t ht
    have h1 : t ≠ a := fun hc => ht (by rw [hc]; exact List.mem_cons_self a rest)
    have h2 : t ∉ rest := fun hc => ht (List.mem_cons_of_mem a hc)
    rw [List.foldl_cons]
    obtain ⟨e1, e2, e3⟩ := ih (bumpStep q a) t h2
    obtain ⟨f1, f2, f3⟩ := bumpStep_entry_other q a t h1
    exact ⟨e1.trans f1, e2.trans f2, e3.trans f3⟩

/-- Effect of the bump walk on a live slot in its work list: the stored
offset grows by 6 (mod u16), the length and the in_use flag survive. -/
theorem bump_fold_entry_live :
    ∀ (l : List Nat) (q : Page) (i : Nat), l.Nodup → i ∈ l →
      i < q.get_num_slots → byteAt q.data (slot_meta_offset i + 4) = 1 →
      slot_meta_offset i + 5 ≤ PAGE_SIZE →
      readU16 ((l.foldl bumpStep q)).data (slot_meta_offset i + 0)
        = (readU16 q.data (slot_meta_offset i + 0) + 6) % 65536
      ∧ readU16 ((l.foldl bumpStep q)).data (slot_meta_offset i + 2)
        = readU16 q.data (slot_meta_offset i + 2)
      ∧ byteAt ((l.foldl bumpStep q)).data (slot_meta_offset i + 4) = 1 := by
  intro l
  induction l with
  | nil =>
    intro q i _ hmem
    cases hmem
  | cons a rest ih =>
    intro q i hnd hmem hns hlive hfit
    rw [List.foldl_cons]
    rcases List.mem_cons.mp hmem with heq | hmem2
    · subst heq
      have hnotin : i ∉ rest := (List.nodup_cons.mp hnd).1
      have hin : q.get_slot_in_use i = some 1 := by
        unfold Page.get_slot_in_use
        rw [if_neg (by omega)]
        rw [hlive]
      have hol : q.get_slot_offset_length i
          = some (readU16 q.data (slot_meta_offset i + 0),
                  readU16 q.data (slot_meta_offset i + 2)) := by
        unfold Page.get_slot_offset_length
        rw [if_neg (by omega)]
      have hstep : bumpStep q i
          = q.write_slot i (readU16 q.data (slot_meta_offset i + 0) + 6)
              (readU16 q.data (slot_meta_offset i + 2)) 1 := by
        unfold bumpStep
        rw [if_pos hin, hol]
      rw [hstep]
      obtain ⟨e1, e2, e3⟩ := bump_fold_entry_out rest
        (q.write_slot i (readU16 q.data (slot_meta_offset i + 0) + 6)
          (readU16 q.data (slot_meta_offset i + 2)) 1) i hnotin
      obtain ⟨s1, s2, s3⟩ := slot_entry_write_slot_self q i
        (readU16 q.data (slot_meta_offset i + 0) + 6)
        (readU16 q.data (slot_meta_offset i + 2)) 1 hfit
      refine ⟨?_, ?_, ?_⟩
      · rw [e1, s1]
      · rw [e2, s2, Nat.mod_eq_of_lt (readU16_lt _ _)]
      · rw [e3, s3]
    · have hne : i ≠ a := by
        intro hc
        rw [hc] at hmem2
        exact (List.nodup_cons.mp hnd).1 hmem2
      obtain ⟨f1, f2, f3⟩ := bumpStep_entry_other q a i hne
      obtain ⟨g1, g2, g3⟩ := ih (bumpStep q a) i (List.nodup_cons.mp hnd).2 hmem2
        (by rw [bumpStep_ns]; exact hns) (by rw [f3]; exact hlive) hfit
      exact ⟨by rw [g1, f1], by rw [g2, f2], g3⟩

/-- Bump walk over all slots followed by the free_start update, seen from
one live slot entry. -/
theorem bump_fs_entry (q : Page) (n x i : Nat) (hn : q.get_num_slots = n) (hi : i < n)
    (hlive : byteAt q.data (slot_meta_offset i + 4) = 1)
    (hfit : slot_meta_offset i + 5 ≤ PAGE_SIZE) :
    readU16 (((List.range n).foldl bumpStep q).set_free_start x).data
        (slot_meta_offset i + 0)
      = (readU16 q.data (slot_meta_offset i + 0) + 6) % 65536
    ∧ readU16 (((List.range n).foldl bumpStep q).set_free_start x).data
        (slot_meta_offset i + 2)
      = readU16 q.data (slot_meta_offset i + 2)
    ∧ byteAt (((List.range n).foldl bumpStep q).set_free_start x).data
        (slot_meta_offset i + 4) = 1 := by
  obtain ⟨sf1, sf2, sf3⟩ := slot_entry_set_free_start ((List.range n).foldl bumpStep q) x i
  obtain ⟨b1, b2, b3⟩ := bump_fold_entry_live (List.range n) q i (List.nodup_range n)
    (List.mem_range.mpr hi) (by omega) hlive hfit
  exact ⟨sf1.trans b1, sf2.trans b2, sf3.trans b3⟩

/-- The clamped copy leaves the header region alone (u16 reads). -/
theorem shiftStage1_readU16_lo (p : Page) (j : Nat)
    (hj : j + 2 ≤ 8 + p.get_num_slots * 6 + 6) :
    readU16 (shiftStage1 p).data j = readU16 p.data j := by
  unfold shiftStage1
  split
  · dsimp only
    exact readU16_copyWithin_out _ _ _ _ _ (Or.inl hj)
  · rfl

/-- The clamped copy leaves the header region alone (byte reads). -/
theorem shiftStage1_byteAt_lo (p : Page) (j : Nat)
    (hj : j + 1 ≤ 8 + p.get_num_slots * 6 + 6) :
    byteAt (shiftStage1 p).data j = byteAt p.data j := by
  unfold shiftStage1
  split
  · dsimp only
    exact byteAt_copyWithin_out _ _ _ _ _ (Or.inl hj)
  · rfl

theorem shiftStage2_ns (p : Page) : (shiftStage2 p).get_num_slots = p.get_num_slots := by
  unfold shiftStage2 Page.get_num_slots
  dsimp only
  rw [readU16_storeBytes_out _ _ _ _ _ (Or.inl (by omega))]
  exact shiftStage1_readU16_lo p 2 (by omega)

/-- Copy and entry zeroing leave every existing slot entry alone. -/
theorem shiftStage2_entry (p : Page) (i : Nat) (hi : i < p.get_num_slots) :
    readU16 (shiftStage2 p).data (slot_meta_offset i + 0)
        = readU16 p.data (slot_meta_offset i + 0)
    ∧ readU16 (shiftStage2 p).data (slot_meta_offset i + 2)
        = readU16 p.data (slot_meta_offset i + 2)
    ∧ byteAt (shiftStage2 p).data (slot_meta_offset i + 4)
        = byteAt p.data (slot_meta_offset i + 4) := by
  have hsm : slot_meta_offset i = 8 + i * 6 := rfl
  unfold shiftStage2
  dsimp only
  refine ⟨?_, ?_, ?_⟩
  · rw [readU16_storeBytes_out _ _ _ _ _ (Or.inl (by omega))]
    exact shiftStage1_readU16_lo p _ (by omega)
  · rw [readU16_storeBytes_out _ _ _ _ _ (Or.inl (by omega))]
    exact shiftStage1_readU16_lo p _ (by omega)
  · rw [byteAt_storeBytes_out _ _ _ _ _ (Or.inl (by omega))]
    exact shiftStage1_byteAt_lo p _ (by omega)

/-- C5 (amended): when a new slot entry is carved out on a page with
existing slots, shift_body_for_new_slot keeps num_slots, sets the stored
free_start to min(free_start + 6, PAGE_SIZE), moves the body bytes right
by 6 only up to the clamp shift_len = min(body_len, PAGE_SIZE -
new_body_start), zeroes the 6 bytes at old_body_start, and adds 6 to the
stored offset of every live slot; and when num_slots = 0 add_value
performs no shift at all: it equals the pipeline with the shift omitted. -/
theorem shift_body_for_new_slot_effects (p : Page)
    (hns : 0 < p.get_num_slots)
    (hhdr : 8 + p.get_num_slots * 6 + 6 ≤ PAGE_SIZE)
    (hoffb : ∀ i, i < p.get_num_slots →
      readU16 p.data (slot_meta_offset i + 0) + 6 < 65536) :
    (p.shift_body_for_new_slot).get_num_slots = p.get_num_slots
    ∧ readU16 (p.shift_body_for_new_slot).data 4
        = min (p.get_free_start + 6) PAGE_SIZE
    ∧ (∀ k, 8 + p.get_num_slots * 6 ≤ k →
        k < 8 + p.get_num_slots * 6
            + min (p.get_free_start - (8 + p.get_num_slots * 6))
                  (PAGE_SIZE - (8 + p.get_num_slots * 6 + 6)) →
        byteAt (p.shift_body_for_new_slot).data (k + 6) = byteAt p.data k)
    ∧ (∀ j, j < 6 →
        byteAt (p.shift_body_for_new_slot).data (8 + p.get_num_slots * 6 + j) = 0)
    ∧ (∀ i, i < p.get_num_slots →
        byteAt p.data (slot_meta_offset i + 4) = 1 →
        readU16 (p.shift_body_for_new_slot).data (slot_meta_offset i + 0)
          = readU16 p.data (slot_meta_offset i + 0) + 6
        ∧ readU16 (p.shift_body_for_new_slot).data (slot_meta_offset i + 2)
          = readU16 p.data (slot_meta_offset i + 2)
        ∧ byteAt (p.shift_body_for_new_slot).data (slot_meta_offset i + 4) = 1)
    ∧ (∀ (q : Page) (c : Bytes), q.get_num_slots = 0 →
        q.add_value c = addValueNoShift q c) := by
  have hPS : PAGE_SIZE = 4096 := rfl
  have hfsle := get_free_start_le p
  refine ⟨shift_ns p, shift_storedfs p, ?_, ?_, ?_, ?_⟩
  · intro k hk1 hk2
    rw [shift_eq]
    rw [byteAt_set_free_start_out _ _ (k + 6) (by omega)]
    rw [bump_fold_byteAt_out (List.range p.get_num_slots) _ (k + 6) (fun a ha => Or.inr (by
      have hna := List.mem_range.mp ha
      have hsm : slot_meta_offset a = 8 + a * 6 := rfl
      omega))]
    unfold shiftStage2
    dsimp only
    rw [byteAt_storeBytes_out ((shiftStage1 p).data) (8 + p.get_num_slots * 6) 6 0 (k + 6)
      (Or.inr (by omega))]
    unfold shiftStage1
    rw [if_pos (show p.get_free_start - (8 + p.get_num_slots * 6) > 0 from by omega)]
    dsimp only
    rw [show k + 6 = 8 + p.get_num_slots * 6 + 6 + (k - (8 + p.get_num_slots * 6)) from
      by omega]
    rw [byteAt_copyWithin_in p.data (8 + p.get_num_slots * 6)
      (min (p.get_free_start - (8 + p.get_num_slots * 6))
        (PAGE_SIZE - (8 + p.get_num_slots * 6 + 6)))
      (8 + p.get_num_slots * 6 + 6) (k - (8 + p.get_num_slots * 6))
      (by omega) (by omega) (by omega)]
    rw [show 8 + p.get_num_slots * 6 + (k - (8 + p.get_num_slots * 6)) = k from by omega]
  · intro j hj
    rw [shift_eq]
    rw [byteAt_set_free_start_out _ _ (8 + p.get_num_slots * 6 + j) (by omega)]
    rw [bump_fold_byteAt_out (List.range p.get_num_slots) _ (8 + p.get_num_slots * 6 + j)
      (fun a ha => Or.inr (by
        have hna := List.mem_range.mp ha
        have hsm : slot_meta_offset a = 8 + a * 6 := rfl
        omega))]
    unfold shiftStage2
    dsimp only
    rw [byteAt_storeBytes_mid ((shiftStage1 p).data) (8 + p.get_num_slots * 6) 6 0
      (8 + p.get_num_slots * 6 + j) (by omega) (by omega) (by omega)]
    simp
  · intro i hi hlive
    have hsm : slot_meta_offset i = 8 + i * 6 := rfl
    rw [shift_eq]
    obtain ⟨e1, e2, e3⟩ := shiftStage2_entry p i hi
    obtain ⟨r1, r2, r3⟩ := bump_fs_entry (shiftStage2 p) p.get_num_slots
      (min (p.get_free_start + 6) PAGE_SIZE) i (shiftStage2_ns p) hi
      (by rw [e3]; exact hlive) (by omega)
    exact ⟨by rw [r1, e1, Nat.mod_eq_of_lt (hoffb i hi)], by rw [r2, e2], r3⟩
  · intro q c hq0
    have hfl : q.find_lowest_free_slot_id = 0 := by
      unfold Page.find_lowest_free_slot_id
      rw [hq0]
      rw [show findFree q (List.range 0) = q.get_num_slots from rfl, hq0]
    simp only [Page.add_value, addValueNoShift, hq0, hfl]
    norm_num

/-- C5 counterexample: the claimed unclamped move "body bytes from
old_body_start up to free_start are moved right by 6" fails. pShift3 is
reached by four successful operations; its next insert needs a new slot
(the chosen id equals num_slots) with num_slots positive, so the shift
runs. Byte 4090 lies in [old_body_start, free_start) and holds 7, yet after
the shift byte 4096 is 0, not 7: the clamp dropped the last body byte. -/
theorem shift_move_truncated_counterexample :
    (pShift2.add_value (repBytes 571 7)).1 = some 0
    ∧ pShift3.find_lowest_free_slot_id = pShift3.get_num_slots
    ∧ 0 < pShift3.get_num_slots
    ∧ 8 + pShift3.get_num_slots * 6 ≤ 4090
    ∧ 4090 < pShift3.get_free_start
    ∧ byteAt pShift3.data 4090 = 7
    ∧ byteAt (pShift3.shift_body_for_new_slot).data (4090 + 6) = 0
    ∧ (7 : Nat) ≠ 0 :=
  ⟨by decide, by decide, by decide, by decide, by decide, by decide, by decide, by decide⟩

/-- C5 witness: the amended shift theorem applied to a one-record page. -/
theorem shift_body_for_new_slot_effects_witness :
    (0 < pTie0.get_num_slots
      ∧ 8 + pTie0.get_num_slots * 6 + 6 ≤ PAGE_SIZE
      ∧ (∀ i, i < pTie0.get_num_slots →
          readU16 pTie0.data (slot_meta_offset i + 0) + 6 < 65536))
    ∧ ((pTie0.shift_body_for_new_slot).get_num_slots = pTie0.get_num_slots
      ∧ readU16 (pTie0.shift_body_for_new_slot).data 4
          = min (pTie0.get_free_start + 6) PAGE_SIZE
      ∧ (∀ k, 8 + pTie0.get_num_slots * 6 ≤ k →
          k < 8 + pTie0.get_num_slots * 6
              + min (pTie0.get_free_start - (8 + pTie0.get_num_slots * 6))
                    (PAGE_SIZE - (8 + pTie0.get_num_slots * 6 + 6)) →
          byteAt (pTie0.shift_body_for_new_slot).data (k + 6) = byteAt pTie0.data k)
      ∧ (∀ j, j < 6 →
          byteAt (pTie0.shift_body_for_new_slot).data (8 + pTie0.get_num_slots * 6 + j)
            = 0)
      ∧ (∀ i, i < pTie0.get_num_slots →
          byteAt pTie0.data (slot_meta_offset i + 4) = 1 →
          readU16 (pTie0.shift_body_for_new_slot).data (slot_meta_offset i + 0)
            = readU16 pTie0.data (slot_meta_offset i + 0) + 6
          ∧ readU16 (pTie0.shift_body_for_new_slot).data (slot_meta_offset i + 2)
            = readU16 pTie0.data (slot_meta_offset i + 2)
          ∧ byteAt (pTie0.shift_body_for_new_slot).data (slot_meta_offset i + 4) = 1)
      ∧ (∀ (q : Page) (c : Bytes), q.get_num_slots = 0 →
          q.add_value c = addValueNoShift q c)) :=
  ⟨⟨by decide, by decide, by decide⟩,
    shift_body_for_new_slot_effects pTie0 (by decide) (by decide) (by decide)⟩
